import Mathlib

/-!
Verification of the gradient reduction/bucketing engine of
`fairscale/optim/oss_reduce_wrap.py`.

The embedding models one executing rank of `ModelDispatch._reduce_grads_task`
together with the buffer allocation performed in `ModelDispatch.__init__`.
Tensors are flattened lists of rationals; the transport (torch.distributed)
is an oracle `net` that supplies the post-wait content of a reduced buffer;
at the destination rank of a reduce the oracle is the pointwise sum of all
per-rank submissions, which is how the multi-rank theorems instantiate it.
-/

namespace OssReduceWrap

/-- A gradient tensor: flattened data plus the autograd requires-grad flag. -/
structure Grad where
  data : List ℚ
  requiresGrad : Bool
deriving DecidableEq, Repr

/-- A model parameter: element count (numel), dtype tag, and the optional
gradient slot (None before backward has produced a gradient). -/
structure Param where
  size : ℕ
  dtype : ℕ
  grad : Option Grad
deriving DecidableEq, Repr

instance : Inhabited Param := ⟨⟨0, 0, none⟩⟩

/-- Well-formedness of a parameter: the flattened gradient slot has exactly
`size` elements (a gradient tensor has the shape of its parameter; an absent
slot reads as `size` zeros). -/
def Param.WF (p : Param) : Prop :=
  (match p.grad with
    | none => p.size
    | some g => g.data.length) = p.size

instance (p : Param) : Decidable p.WF := by
  unfold Param.WF
  infer_instance

/-- Errors raised by the embedded code. `runtimeError` is the
RuntimeError of `_reduce_grads_task` for a gradient that requires grad;
`indexError` models an out-of-range subscript. -/
inductive Err where
  | runtimeError
  | indexError
deriving DecidableEq, Repr

/-- `xs.div_(ws)`: elementwise division by the world size. -/
def scale (ws : ℕ) (xs : List ℚ) : List ℚ := xs.map (fun x => x / (ws : ℚ))

/-- Line 104-106: `if p.grad is None: p.grad = torch.zeros_like(p)`.
A fresh zero tensor does not require grad. -/
def fillNone (p : Param) : Param :=
  match p.grad with
  | none => { p with grad := some ⟨List.replicate p.size 0, false⟩ }
  | some _ => p

/-- The flattened data of the gradient slot of `p` (zeros when absent,
matching the zero-fill the code performs before any read). -/
def gradData (p : Param) : List ℚ :=
  match p.grad with
  | none => List.replicate p.size 0
  | some g => g.data

/-- `p.grad.requires_grad` (False when the slot is absent, as for a
fresh zero tensor). -/
def gradRequires (p : Param) : Bool :=
  match p.grad with
  | none => false
  | some g => g.requiresGrad

/-- In-place overwrite of the data of the gradient slot of `p`
(`p.grad.data.copy_(d)`): the requires-grad flag is untouched. -/
def setGradData (p : Param) (d : List ℚ) : Param :=
  { p with grad := some ⟨d, gradRequires p⟩ }

/-- Line 136: `p.grad.div_(world_size)` — in-place scaling of the slot. -/
def scaleGrad (ws : ℕ) (p : Param) : Param :=
  setGradData p (scale ws (gradData p))

/-- `buffer[offset:offset+vals.length].copy_(vals)`: overwrite the slice of
`buf` starting at `offset` with `vals`. -/
def writeAt (buf : List ℚ) (offset : ℕ) (vals : List ℚ) : List ℚ :=
  buf.take offset ++ vals ++ buf.drop (offset + vals.length)

/-- `buffer[offset:offset+len]`: read a slice of length `len` at `offset`. -/
def sliceAt (buf : List ℚ) (offset len : ℕ) : List ℚ :=
  (buf.drop offset).take len

/-- Lines 111-119: the packing loop.  Starting from `offset`, while the next
parameter still fits strictly below `bufferSize`, copy its flattened gradient
into the buffer and advance.  Returns the written buffer, the number of
packed parameters (`i_bucketed`) and the final offset. -/
def packLoop (buf : List ℚ) (bufferSize : ℕ) (params : List Param) (offset : ℕ) :
    List ℚ × ℕ × ℕ :=
  match params with
  | [] => (buf, 0, offset)
  | p :: rest =>
    if offset + p.size < bufferSize then
      let res := packLoop (writeAt buf offset (gradData p)) bufferSize rest (offset + p.size)
      (res.1, res.2.1 + 1, res.2.2)
    else (buf, 0, offset)

/-- Lines 149-153: the unpacking loop, the same bounds computation as
`packLoop` but copying buffer slices back into the gradient slots. -/
def unpackLoop (buf : List ℚ) (bufferSize : ℕ) (params : List Param) (offset : ℕ) :
    List Param :=
  match params with
  | [] => []
  | p :: rest =>
    if offset + p.size < bufferSize then
      setGradData p (sliceAt buf offset p.size) :: unpackLoop buf bufferSize rest (offset + p.size)
    else p :: rest

/-- The packed-count of the greedy loop as a pure function of the sizes:
used to state size-only dependence (structural agreement) of packing. -/
def greedyCount (bufferSize : ℕ) (szs : List ℕ) (offset : ℕ) : ℕ :=
  match szs with
  | [] => 0
  | s :: rest => if offset + s < bufferSize then greedyCount bufferSize rest (offset + s) + 1 else 0

/-- The final offset of the greedy loop as a pure function of the sizes. -/
def greedyOffset (bufferSize : ℕ) (szs : List ℕ) (offset : ℕ) : ℕ :=
  match szs with
  | [] => offset
  | s :: rest => if offset + s < bufferSize then greedyOffset bufferSize rest (offset + s) else offset

/-- Lines 130-137: the suffix loop over `params[i_bucketed:]`.  Raise for a
gradient that itself requires grad, otherwise scale it in place and record
one individual reduce request `(rank, index)`. -/
def processSuffix (ws r startIdx : ℕ) (suffix : List Param) :
    Except Err (List Param × List (ℕ × ℕ)) :=
  match suffix with
  | [] => .ok ([], [])
  | p :: rest =>
    if gradRequires p then .error .runtimeError
    else
      match processSuffix ws r (startIdx + 1) rest with
      | .error e => .error e
      | .ok (rest', idxs) => .ok (scaleGrad ws p :: rest', (r, startIdx) :: idxs)

/-- The per-rank state after the submission phase: updated parameters,
buffer content, number of packed parameters, final pack offset, and the
individual reduce requests issued for this rank. -/
structure RankOutcome where
  params : List Param
  buffer : List ℚ
  packedCount : ℕ
  finalOffset : ℕ
  idxs : List (ℕ × ℕ)
deriving DecidableEq, Repr

instance : Inhabited RankOutcome := ⟨⟨[], [], 0, 0, []⟩⟩

/-- Lines 99-137 for one `(rank, params), buffer` pair: skip an empty list,
zero-fill absent gradients, pack the greedy bucket, scale the buffer once if
anything was packed, then process the unpacked suffix. -/
def processRank (ws bufferSize r : ℕ) (params : List Param) (buffer : List ℚ) :
    Except Err RankOutcome :=
  if params.isEmpty then .ok ⟨params, buffer, 0, 0, []⟩
  else
    let params1 := params.map fillNone
    let res := packLoop buffer bufferSize params1 0
    let k := res.2.1
    let buffer2 := if 0 < k then scale ws res.1 else res.1
    match processSuffix ws r k (params1.drop k) with
    | .error e => .error e
    | .ok (suffix2, idxs) => .ok ⟨params1.take k ++ suffix2, buffer2, k, res.2.2, idxs⟩

/-- The submission loop over `zip(enumerate(per_rank_params), buffers)`,
starting at rank `r`; stops at the shorter list, propagates the first
raised error. -/
def phaseA (ws bufferSize r : ℕ) (prs : List (List Param)) (bufs : List (List ℚ)) :
    Except Err (List RankOutcome) :=
  match prs, bufs with
  | params :: prest, buf :: brest =>
    match processRank ws bufferSize r params buf with
    | .error e => .error e
    | .ok oc =>
      match phaseA ws bufferSize (r + 1) prest brest with
      | .error e => .error e
      | .ok rest => .ok (oc :: rest)
  | _, _ => .ok []

/-- The ranks with a pending bucket request, in submission order
(`i_bucketed > 0` on line 121). -/
def bucketRanks (ocs : List RankOutcome) : List ℕ :=
  (List.range ocs.length).filter (fun r => 0 < (ocs.getD r default).packedCount)

/-- Line 143-153 applied to one rank: after the wait the buffer holds the
transport result; only when the tagged rank is the calling rank is the
buffer unpacked into the gradient slots. -/
def unpackRank (bufferSize : ℕ) (oc : RankOutcome) : RankOutcome :=
  { oc with params := unpackLoop oc.buffer bufferSize oc.params 0 }

/-- Lines 140-153: wait on each bucket request in order (the oracle `net`
supplies the post-wait buffer content) and unpack only for the calling
rank. -/
def phaseB (net : ℕ → List ℚ → List ℚ) (bufferSize selfRank : ℕ) :
    List ℕ → List RankOutcome → List RankOutcome
  | [], states => states
  | r :: rest, states =>
    let oc := states.getD r default
    let oc1 := { oc with buffer := net r oc.buffer }
    let oc2 := if r = selfRank then unpackRank bufferSize oc1 else oc1
    phaseB net bufferSize selfRank rest (states.set r oc2)

/-- The result of one `_reduce_grads_task` call on the executing rank. -/
structure TaskResult where
  perRank : List RankOutcome
  buckets : List ℕ
  individualIdx : List (ℕ × ℕ)
deriving DecidableEq, Repr

/-- `_reduce_grads_task` (lines 86-156) on one executing rank `selfRank`:
capacity is `buffers[0].numel()`, then the submission loop over all ranks,
then the bucket waits with self-unpack, then the individual waits (which
leave local state unchanged). -/
def reduce_grads_task (net : ℕ → List ℚ → List ℚ) (ws : ℕ) (buffers : List (List ℚ))
    (perRankParams : List (List Param)) (selfRank : ℕ) : Except Err TaskResult :=
  match buffers with
  | [] => .error .indexError
  | b0 :: _ =>
    let bufferSize := b0.length
    match phaseA ws bufferSize 0 perRankParams buffers with
    | .error e => .error e
    | .ok ocs =>
      .ok ⟨phaseB net bufferSize selfRank (bucketRanks ocs) ocs, bucketRanks ocs,
        (ocs.map RankOutcome.idxs).flatten⟩

/-- `dispatch_grads` for one device, threading the persistent reduce buffers
and parameters through a call: the next call starts from the buffers this
call left behind (no re-zeroing happens anywhere in between). -/
def dispatchStep (net : ℕ → List ℚ → List ℚ) (ws selfRank : ℕ)
    (st : List (List ℚ) × List (List Param)) :
    Except Err ((List (List ℚ) × List (List Param)) × TaskResult) :=
  match reduce_grads_task net ws st.1 st.2 selfRank with
  | .error e => .error e
  | .ok res => .ok ((res.perRank.map RankOutcome.buffer, res.perRank.map RankOutcome.params), res)

/-- An allocated reduce buffer: a dtype tag and zero-initialized storage. -/
structure RBuffer where
  dtype : ℕ
  data : List ℚ
deriving DecidableEq, Repr

/-- Lines 60-64 for one device: `buffer_dtype = per_device[0][0].dtype`
(an out-of-range subscript raises), then one zero buffer per rank. -/
def allocDevice (bufferSize : ℕ) (perDevice : List (List Param)) :
    Except Err (List RBuffer) :=
  match perDevice with
  | [] => .error .indexError
  | l0 :: _ =>
    match l0 with
    | [] => .error .indexError
    | p0 :: _ => .ok (perDevice.map (fun _ => ⟨p0.dtype, List.replicate bufferSize 0⟩))

/-- The loop over `self.sharded_optimizer.per_device_params.items()`:
one buffer list per device, the first raised error propagating. -/
def initLoop (bufferSize : ℕ) (devices : List (List (List Param))) :
    Except Err (List (List RBuffer)) :=
  match devices with
  | [] => .ok []
  | d :: rest =>
    match allocDevice bufferSize d with
    | .error e => .error e
    | .ok bufs =>
      match initLoop bufferSize rest with
      | .error e => .error e
      | .ok rest2 => .ok (bufs :: rest2)

/-- Lines 54-64 of `ModelDispatch.__init__`: clamp the configured ceiling by
the element total of ALL model parameters, then allocate one buffer per
(device, rank). `modelSizes` are the numels of `base_model.parameters()`. -/
def initBuffers (ceiling : ℕ) (modelSizes : List ℕ) (devices : List (List (List Param))) :
    Except Err (List (List RBuffer)) :=
  initLoop (min ceiling modelSizes.sum) devices

/-- Element total of the parameters assigned to one device. -/
def deviceTotal (perDevice : List (List Param)) : ℕ :=
  (perDevice.map (fun l => (l.map Param.size).sum)).sum

/-- Modelled from the spec (for the refinement comparison of claim C4):
capacity = min(ceiling, total element count of all parameters on that
device). -/
def specDeviceCapacity (ceiling : ℕ) (perDevice : List (List Param)) : ℕ :=
  min ceiling (deviceTotal perDevice)

/-- Modelled from the spec (for the refinement comparison of claim C5):
all parameters of one device share a dtype; a violation is a configuration
error at construction. -/
def specDtypeUniform (perDevice : List (List Param)) : Prop :=
  ∀ p ∈ perDevice.flatten, ∀ q ∈ perDevice.flatten, p.dtype = q.dtype

instance (perDevice : List (List Param)) : Decidable (specDtypeUniform perDevice) := by
  unfold specDtypeUniform
  infer_instance

/-- Pointwise sum of a family of equal-length vectors (the combination a
reduce with destination `dst` materializes at `dst`). -/
def sumAll (L : ℕ) (xs : List (List ℚ)) : List ℚ :=
  xs.foldr (List.zipWith (· + ·)) (List.replicate L 0)

instance {ε α : Type} [DecidableEq ε] [DecidableEq α] : DecidableEq (Except ε α) :=
  fun x y =>
  match x, y with
  | .ok a, .ok b =>
    if h : a = b then isTrue (by rw [h]) else isFalse (fun hc => by cases hc; exact h rfl)
  | .error a, .error b =>
    if h : a = b then isTrue (by rw [h]) else isFalse (fun hc => by cases hc; exact h rfl)
  | .ok _, .error _ => isFalse (fun hc => by cases hc)
  | .error _, .ok _ => isFalse (fun hc => by cases hc)

/-! ### Small facts about parameters and gradient slots -/

theorem gradData_length (p : Param) (h : p.WF) : (gradData p).length = p.size := by
  cases hg : p.grad with
  | none => simp [gradData, hg]
  | some g => simp only [gradData, hg]; simpa [Param.WF, hg] using h

theorem fillNone_size (p : Param) : (fillNone p).size = p.size := by
  cases hg : p.grad <;> simp [fillNone, hg]

theorem fillNone_gradData (p : Param) : gradData (fillNone p) = gradData p := by
  cases hg : p.grad <;> simp [fillNone, gradData, hg]

theorem fillNone_gradRequires (p : Param) : gradRequires (fillNone p) = gradRequires p := by
  cases hg : p.grad <;> simp [fillNone, gradRequires, hg]

theorem fillNone_WF (p : Param) (h : p.WF) : (fillNone p).WF := by
  cases hg : p.grad <;> simp_all [fillNone, Param.WF, hg]

theorem scaleGrad_gradData (ws : ℕ) (p : Param) :
    gradData (scaleGrad ws p) = scale ws (gradData p) := rfl

theorem scaleGrad_size (ws : ℕ) (p : Param) : (scaleGrad ws p).size = p.size := rfl

theorem setGradData_gradData (p : Param) (d : List ℚ) : gradData (setGradData p d) = d := rfl

theorem scale_length (ws : ℕ) (xs : List ℚ) : (scale ws xs).length = xs.length := by
  simp [scale]

theorem map_fillNone_sizes (l : List Param) :
    (l.map fillNone).map Param.size = l.map Param.size := by
  induction l with
  | nil => rfl
  | cons p rest ih => simp [fillNone_size, ih]

theorem getD_map_fillNone (l : List Param) (i : ℕ) (hi : i < l.length) :
    (l.map fillNone).getD i default = fillNone (l.getD i default) := by
  rw [List.getD_eq_getElem?_getD, List.getD_eq_getElem?_getD, List.getElem?_map,
    List.getElem?_eq_getElem hi]
  rfl

/-! ### Slices and in-buffer writes -/

theorem writeAt_length (buf : List ℚ) (offset : ℕ) (vals : List ℚ)
    (h : offset + vals.length ≤ buf.length) : (writeAt buf offset vals).length = buf.length := by
  simp only [writeAt, List.length_append, List.length_take, List.length_drop]
  omega

theorem sliceAt_length (buf : List ℚ) (offset len : ℕ) (h : offset + len ≤ buf.length) :
    (sliceAt buf offset len).length = len := by
  simp only [sliceAt, List.length_take, List.length_drop]
  omega

theorem sliceAt_writeAt_self (buf : List ℚ) (offset : ℕ) (vals : List ℚ)
    (h : offset + vals.length ≤ buf.length) :
    sliceAt (writeAt buf offset vals) offset vals.length = vals := by
  unfold sliceAt writeAt
  rw [List.append_assoc,
    List.drop_append_of_le_length (by simp only [List.length_take]; omega),
    List.drop_of_length_le (by simp only [List.length_take]; omega), List.nil_append]
  exact List.take_left vals _

theorem sliceAt_writeAt_below (buf : List ℚ) (offset : ℕ) (vals : List ℚ) (off2 len2 : ℕ)
    (h2 : off2 + len2 ≤ offset) (hoff : offset ≤ buf.length) :
    sliceAt (writeAt buf offset vals) off2 len2 = sliceAt buf off2 len2 := by
  unfold sliceAt writeAt
  rw [List.append_assoc, List.drop_append_of_le_length (by simp [List.length_take]; omega),
    List.take_append_of_le_length (by simp [List.length_take]; omega),
    List.drop_take, List.take_take]
  congr 1
  omega

theorem sliceAt_scale (ws : ℕ) (buf : List ℚ) (offset len : ℕ) :
    sliceAt (scale ws buf) offset len = scale ws (sliceAt buf offset len) := by
  simp [sliceAt, scale, List.map_take, List.map_drop]

theorem sliceAt_zipWith (f : ℚ → ℚ → ℚ) (a b : List ℚ) (offset len : ℕ) :
    sliceAt (List.zipWith f a b) offset len
      = List.zipWith f (sliceAt a offset len) (sliceAt b offset len) := by
  simp [sliceAt, List.drop_zipWith, List.take_zipWith]

theorem sliceAt_replicate (L off len : ℕ) (h : off + len ≤ L) :
    sliceAt (List.replicate L (0 : ℚ)) off len = List.replicate len 0 := by
  simp only [sliceAt, List.drop_replicate, List.take_replicate]
  congr 1
  omega

/-! ### The greedy bounds as functions of the sizes alone -/

theorem greedyCount_le_length (bufferSize : ℕ) (szs : List ℕ) (offset : ℕ) :
    greedyCount bufferSize szs offset ≤ szs.length := by
  induction szs generalizing offset with
  | nil => simp [greedyCount]
  | cons s rest ih =>
    simp only [greedyCount, List.length_cons]
    split
    · exact Nat.succ_le_succ (ih _)
    · exact Nat.zero_le _

theorem greedyOffset_eq_sum (bufferSize : ℕ) (szs : List ℕ) (offset : ℕ) :
    greedyOffset bufferSize szs offset
      = offset + (szs.take (greedyCount bufferSize szs offset)).sum := by
  induction szs generalizing offset with
  | nil => simp [greedyOffset, greedyCount]
  | cons s rest ih =>
    simp only [greedyOffset, greedyCount]
    split
    · rw [ih]
      simp [List.take_succ_cons]
      omega
    · simp

theorem greedyOffset_le (bufferSize : ℕ) (szs : List ℕ) (offset : ℕ)
    (h : offset ≤ bufferSize) : greedyOffset bufferSize szs offset ≤ bufferSize := by
  induction szs generalizing offset with
  | nil => simpa [greedyOffset]
  | cons s rest ih =>
    simp only [greedyOffset]
    split
    · next hfit => exact ih _ (Nat.le_of_lt hfit)
    · exact h

theorem greedy_fits (bufferSize : ℕ) (szs : List ℕ) (offset j : ℕ)
    (hj : j < greedyCount bufferSize szs offset) :
    offset + (szs.take j).sum + szs.getD j 0 < bufferSize := by
  induction szs generalizing offset j with
  | nil => simp [greedyCount] at hj
  | cons s rest ih =>
    simp only [greedyCount] at hj
    split at hj
    · next hfit =>
      cases j with
      | zero => simpa using hfit
      | succ j2 =>
        have := ih (offset + s) j2 (by omega)
        simp only [List.take_succ_cons, List.sum_cons, List.getD_cons_succ]
        omega
    · omega

theorem greedy_stop (bufferSize : ℕ) (szs : List ℕ) (offset : ℕ)
    (h : greedyCount bufferSize szs offset < szs.length) :
    ¬(offset + (szs.take (greedyCount bufferSize szs offset)).sum
        + szs.getD (greedyCount bufferSize szs offset) 0 < bufferSize) := by
  induction szs generalizing offset with
  | nil => simp at h
  | cons s rest ih =>
    simp only [greedyCount, List.length_cons] at h ⊢
    split
    · next hfit =>
      rw [if_pos hfit] at h
      have := ih (offset + s) (by omega)
      simp only [List.take_succ_cons, List.sum_cons, List.getD_cons_succ]
      omega
    · next hfit => simpa using hfit

/-! ### The packing loop -/

theorem packLoop_count (buf : List ℚ) (bufferSize : ℕ) (params : List Param) (offset : ℕ) :
    (packLoop buf bufferSize params offset).2.1
      = greedyCount bufferSize (params.map Param.size) offset := by
  induction params generalizing buf offset with
  | nil => simp [packLoop, greedyCount]
  | cons p rest ih =>
    simp only [packLoop, greedyCount, List.map_cons]
    split
    · simp [ih]
    · rfl

theorem packLoop_offset (buf : List ℚ) (bufferSize : ℕ) (params : List Param) (offset : ℕ) :
    (packLoop buf bufferSize params offset).2.2
      = greedyOffset bufferSize (params.map Param.size) offset := by
  induction params generalizing buf offset with
  | nil => simp [packLoop, greedyOffset]
  | cons p rest ih =>
    simp only [packLoop, greedyOffset, List.map_cons]
    split
    · simp [ih]
    · rfl

theorem packLoop_length (bufferSize : ℕ) (params : List Param) (buf : List ℚ) (offset : ℕ)
    (hbuf : buf.length = bufferSize) (hwf : ∀ p ∈ params, p.WF) :
    (packLoop buf bufferSize params offset).1.length = bufferSize := by
  induction params generalizing buf offset with
  | nil => simpa [packLoop]
  | cons p rest ih =>
    simp only [packLoop]
    split
    · next hfit =>
      refine ih _ _ ?_ (fun q hq => hwf q (List.mem_cons_of_mem _ hq))
      rw [writeAt_length]
      · exact hbuf
      · rw [gradData_length p (hwf p (List.mem_cons_self p rest))]
        omega
    · simpa

theorem packLoop_below (bufferSize : ℕ) (params : List Param) (buf : List ℚ)
    (offset off2 len2 : ℕ) (hbuf : buf.length = bufferSize) (hwf : ∀ p ∈ params, p.WF)
    (h2 : off2 + len2 ≤ offset) :
    sliceAt (packLoop buf bufferSize params offset).1 off2 len2 = sliceAt buf off2 len2 := by
  induction params generalizing buf offset with
  | nil => simp [packLoop]
  | cons p rest ih =>
    simp only [packLoop]
    split
    · next hfit =>
      have hlen : offset + (gradData p).length ≤ buf.length := by
        rw [gradData_length p (hwf p (List.mem_cons_self p rest))]
        omega
      rw [ih (writeAt buf offset (gradData p)) (offset + p.size)
        (by rw [writeAt_length _ _ _ hlen]; exact hbuf)
        (fun q hq => hwf q (List.mem_cons_of_mem _ hq)) (by omega)]
      exact sliceAt_writeAt_below buf offset (gradData p) off2 len2 h2 (by omega)
    · rfl

theorem packLoop_slice (bufferSize : ℕ) (params : List Param) (buf : List ℚ) (offset j : ℕ)
    (hbuf : buf.length = bufferSize) (hwf : ∀ p ∈ params, p.WF)
    (hj : j < greedyCount bufferSize (params.map Param.size) offset) :
    sliceAt (packLoop buf bufferSize params offset).1
        (offset + ((params.map Param.size).take j).sum) ((params.map Param.size).getD j 0)
      = gradData (params.getD j default) := by
  induction params generalizing buf offset j with
  | nil => simp [greedyCount] at hj
  | cons p rest ih =>
    simp only [greedyCount, List.map_cons] at hj
    by_cases hfit : offset + p.size < bufferSize
    · rw [if_pos hfit] at hj
      simp only [packLoop, if_pos hfit]
      have hwfp := hwf p (List.mem_cons_self p rest)
      have hlen : offset + (gradData p).length ≤ buf.length := by
        rw [gradData_length p hwfp]; omega
      have hwlen : (writeAt buf offset (gradData p)).length = bufferSize := by
        rw [writeAt_length _ _ _ hlen]; exact hbuf
      have hwrest : ∀ q ∈ rest, q.WF := fun q hq => hwf q (List.mem_cons_of_mem _ hq)
      cases j with
      | zero =>
        simp only [List.take_zero, List.sum_nil, Nat.add_zero, List.getD_cons_zero,
          List.map_cons]
        rw [packLoop_below bufferSize rest _ (offset + p.size) offset p.size hwlen hwrest
          (by omega)]
        rw [← gradData_length p hwfp]
        exact sliceAt_writeAt_self buf offset (gradData p) hlen
      | succ j2 =>
        have := ih (writeAt buf offset (gradData p)) (offset + p.size) j2 hwlen hwrest
          (by omega)
        simp only [List.take_succ_cons, List.sum_cons, List.getD_cons_succ, List.map_cons]
        rw [← Nat.add_assoc]
        exact this
    · rw [if_neg hfit] at hj
      omega

/-! ### The unpacking loop -/

theorem unpackLoop_length (buf : List ℚ) (bufferSize : ℕ) (params : List Param) (offset : ℕ) :
    (unpackLoop buf bufferSize params offset).length = params.length := by
  induction params generalizing offset with
  | nil => rfl
  | cons p rest ih =>
    simp only [unpackLoop]
    split
    · simp [ih]
    · rfl

theorem unpackLoop_getD_lt (buf : List ℚ) (bufferSize : ℕ) (params : List Param)
    (offset j : ℕ) (hj : j < greedyCount bufferSize (params.map Param.size) offset) :
    (unpackLoop buf bufferSize params offset).getD j default
      = setGradData (params.getD j default)
          (sliceAt buf (offset + ((params.map Param.size).take j).sum)
            ((params.map Param.size).getD j 0)) := by
  induction params generalizing offset j with
  | nil => simp [greedyCount] at hj
  | cons p rest ih =>
    simp only [greedyCount, List.map_cons] at hj
    by_cases hfit : offset + p.size < bufferSize
    · rw [if_pos hfit] at hj
      simp only [unpackLoop, if_pos hfit]
      cases j with
      | zero => simp
      | succ j2 =>
        simp only [List.getD_cons_succ, List.take_succ_cons, List.sum_cons,
          List.map_cons]
        rw [← Nat.add_assoc]
        exact ih (offset + p.size) j2 (by omega)
    · rw [if_neg hfit] at hj
      omega

/-! ### The suffix loop -/

theorem processSuffix_ok (ws r s : ℕ) (l : List Param)
    (h : ∀ p ∈ l, gradRequires p = false) :
    processSuffix ws r s l
      = .ok (l.map (scaleGrad ws), (List.range' s l.length).map (fun i => (r, i))) := by
  induction l generalizing s with
  | nil => simp [processSuffix]
  | cons p rest ih =>
    simp only [processSuffix, h p (List.mem_cons_self p rest), Bool.false_eq_true, if_false,
      ih (s + 1) (fun q hq => h q (List.mem_cons_of_mem _ hq)), List.length_cons,
      List.range'_succ, List.map_cons]

theorem processSuffix_error_iff (ws r s : ℕ) (l : List Param) (e : Err) :
    processSuffix ws r s l = .error e
      ↔ (e = .runtimeError ∧ ∃ p ∈ l, gradRequires p = true) := by
  induction l generalizing s with
  | nil => simp [processSuffix]
  | cons p rest ih =>
    simp only [processSuffix]
    by_cases hp : gradRequires p
    · simp only [hp, if_true, List.mem_cons]
      constructor
      · intro he
        cases he
        exact ⟨rfl, p, Or.inl rfl, hp⟩
      · rintro ⟨he, -⟩
        rw [he]
    · simp only [hp, if_false]
      rcases hs : processSuffix ws r (s + 1) rest with e2 | ⟨v1, v2⟩
      · simp only [List.mem_cons]
        constructor
        · intro he
          cases he
          have h2 := (ih (s + 1)).mp hs
          exact ⟨h2.1, h2.2.elim (fun q hq => ⟨q, Or.inr hq.1, hq.2⟩)⟩
        · rintro ⟨he, q, hq, hreq⟩
          rcases hq with rfl | hq2
          · exact absurd hreq (by simpa using hp)
          · have h2 := (ih (s + 1)).mpr ⟨he, q, hq2, hreq⟩
            rw [h2] at hs
            exact hs.symm
      · constructor
        · intro he
          cases he
        · rintro ⟨he, q, hq, hreq⟩
          rcases List.mem_cons.mp hq with rfl | hq2
          · exact absurd hreq (by simpa using hp)
          · have hcontra : processSuffix ws r (s + 1) rest = .error e :=
              (ih (s + 1)).mpr ⟨he, q, hq2, hreq⟩
            rw [hcontra] at hs
            cases hs

/-! ### One rank of the submission loop -/

theorem processRank_ok_of (ws bufferSize r : ℕ) (params : List Param) (buf : List ℚ)
    (hne : params ≠ []) (hreq : ∀ p ∈ params, gradRequires p = false) :
    processRank ws bufferSize r params buf =
      .ok ⟨(params.map fillNone).take (greedyCount bufferSize (params.map Param.size) 0)
            ++ ((params.map fillNone).drop
                  (greedyCount bufferSize (params.map Param.size) 0)).map (scaleGrad ws),
          (if 0 < greedyCount bufferSize (params.map Param.size) 0 then
              scale ws (packLoop buf bufferSize (params.map fillNone) 0).1
            else (packLoop buf bufferSize (params.map fillNone) 0).1),
          greedyCount bufferSize (params.map Param.size) 0,
          greedyOffset bufferSize (params.map Param.size) 0,
          (List.range' (greedyCount bufferSize (params.map Param.size) 0)
              (params.length - greedyCount bufferSize (params.map Param.size) 0)).map
            (fun i => (r, i))⟩ := by
  have hreq1 : ∀ p ∈ (params.map fillNone).drop
      (greedyCount bufferSize (params.map Param.size) 0), gradRequires p = false := by
    intro p hp
    have hp2 := List.mem_of_mem_drop hp
    rcases List.mem_map.mp hp2 with ⟨q, hq, rfl⟩
    rw [fillNone_gradRequires]
    exact hreq q hq
  have hcnt : (packLoop buf bufferSize (params.map fillNone) 0).2.1
      = greedyCount bufferSize (params.map Param.size) 0 := by
    rw [packLoop_count, map_fillNone_sizes]
  have hoff : (packLoop buf bufferSize (params.map fillNone) 0).2.2
      = greedyOffset bufferSize (params.map Param.size) 0 := by
    rw [packLoop_offset, map_fillNone_sizes]
  have hlen : ((params.map fillNone).drop
      (greedyCount bufferSize (params.map Param.size) 0)).length
      = params.length - greedyCount bufferSize (params.map Param.size) 0 := by
    simp
  unfold processRank
  rw [if_neg (by simpa [List.isEmpty_iff] using hne)]
  simp only [hcnt, hoff]
  rw [processSuffix_ok ws r _ _ hreq1, hlen]

theorem processRank_error_iff (ws bufferSize r : ℕ) (params : List Param) (buf : List ℚ)
    (e : Err) :
    processRank ws bufferSize r params buf = .error e
      ↔ (e = .runtimeError ∧ ∃ j, greedyCount bufferSize (params.map Param.size) 0 ≤ j
          ∧ j < params.length ∧ gradRequires (params.getD j default) = true) := by
  by_cases hne : params = []
  · subst hne
    simp [processRank]
  · unfold processRank
    rw [if_neg (by simpa [List.isEmpty_iff] using hne)]
    have hcnt : (packLoop buf bufferSize (params.map fillNone) 0).2.1
        = greedyCount bufferSize (params.map Param.size) 0 := by
      rw [packLoop_count, map_fillNone_sizes]
    simp only [hcnt]
    set k := greedyCount bufferSize (params.map Param.size) 0 with hk
    have hmem : (∃ p ∈ (params.map fillNone).drop k, gradRequires p = true)
        ↔ ∃ j, k ≤ j ∧ j < params.length ∧ gradRequires (params.getD j default) = true := by
      rw [← List.map_drop]
      constructor
      · rintro ⟨p, hp, hreq⟩
        rcases List.mem_map.mp hp with ⟨q, hq, rfl⟩
        rcases List.mem_iff_getElem.mp hq with ⟨i, hi, hgi⟩
        have hlen : (params.drop k).length = params.length - k := List.length_drop ..
        have hki : k + i < params.length := by omega
        rw [List.getElem_drop] at hgi
        rw [fillNone_gradRequires] at hreq
        refine ⟨k + i, Nat.le_add_right _ _, hki, ?_⟩
        rw [List.getD_eq_getElem _ _ hki, hgi]
        exact hreq
      · rintro ⟨j, hkj, hj, hreq⟩
        have hjd : j - k < (params.drop k).length := by
          rw [List.length_drop]
          omega
        refine ⟨fillNone ((params.drop k)[j - k]), List.mem_map_of_mem _ (List.getElem_mem hjd),
          ?_⟩
        rw [fillNone_gradRequires, List.getElem_drop]
        rw [List.getD_eq_getElem _ _ hj] at hreq
        have hjj : k + (j - k) = j := by omega
        simp only [hjj]
        exact hreq
    rcases hs : processSuffix ws r k ((params.map fillNone).drop k) with e2 | v
    · rw [processSuffix_error_iff] at hs
      simp only [hs.1]
      constructor
      · intro he
        cases he
        exact ⟨rfl, hmem.mp hs.2⟩
      · rintro ⟨he, -⟩
        rw [he]
    · constructor
      · intro he
        cases he
      · rintro ⟨he, j, hkj, hj, hreq⟩
        have : processSuffix ws r k ((params.map fillNone).drop k) = .error e := by
          rw [processSuffix_error_iff]
          exact ⟨he, hmem.mpr ⟨j, hkj, hj, hreq⟩⟩
        rw [this] at hs
        cases hs

/-! ### Pointwise sums -/

theorem scale_zipWith (ws : ℕ) (a b : List ℚ) :
    scale ws (List.zipWith (· + ·) a b) = List.zipWith (· + ·) (scale ws a) (scale ws b) := by
  induction a generalizing b with
  | nil => simp [scale]
  | cons x xs ih =>
    cases b with
    | nil => simp [scale]
    | cons y ys => simp [scale, add_div] at ih ⊢; exact ih ys

theorem scale_replicate_zero (ws n : ℕ) :
    scale ws (List.replicate n (0 : ℚ)) = List.replicate n 0 := by
  simp [scale, List.map_replicate]

theorem sumAll_map_scale (L ws : ℕ) (xs : List (List ℚ)) :
    sumAll L (xs.map (scale ws)) = scale ws (sumAll L xs) := by
  induction xs with
  | nil => simp [sumAll, scale_replicate_zero]
  | cons x rest ih =>
    simp only [sumAll, List.map_cons, List.foldr_cons] at ih ⊢
    rw [ih, scale_zipWith]

theorem sliceAt_sumAll (L off len : ℕ) (xs : List (List ℚ)) (h : off + len ≤ L) :
    sliceAt (sumAll L xs) off len = sumAll len (xs.map (fun x => sliceAt x off len)) := by
  induction xs with
  | nil => simpa [sumAll] using sliceAt_replicate L off len h
  | cons x rest ih =>
    simp only [sumAll, List.map_cons, List.foldr_cons] at ih ⊢
    rw [sliceAt_zipWith, ih]

/-! ### Inversion of the per-rank submission -/

theorem processSuffix_ok_inv (ws r s : ℕ) (l l2 : List Param) (idxs : List (ℕ × ℕ))
    (h : processSuffix ws r s l = .ok (l2, idxs)) :
    l2 = l.map (scaleGrad ws)
      ∧ idxs = (List.range' s l.length).map (fun i => (r, i))
      ∧ ∀ p ∈ l, gradRequires p = false := by
  induction l generalizing s l2 idxs with
  | nil =>
    simp only [processSuffix, Except.ok.injEq, Prod.mk.injEq] at h
    simp [← h.1, ← h.2]
  | cons p rest ih =>
    simp only [processSuffix] at h
    by_cases hp : gradRequires p
    · rw [if_pos hp] at h
      cases h
    · rw [if_neg hp] at h
      rcases hs : processSuffix ws r (s + 1) rest with e | ⟨r2, i2⟩ <;> rw [hs] at h
      · cases h
      · simp only [Except.ok.injEq, Prod.mk.injEq] at h
        rcases ih (s + 1) r2 i2 hs with ⟨hr2, hi2, hrest⟩
        refine ⟨?_, ?_, ?_⟩
        · rw [← h.1, hr2, List.map_cons]
        · rw [← h.2, hi2, List.length_cons, List.range'_succ, List.map_cons]
        · intro q hq
          rcases List.mem_cons.mp hq with rfl | hq2
          · simpa using hp
          · exact hrest q hq2

theorem processRank_ok_char (ws bufferSize r : ℕ) (params : List Param) (buf : List ℚ)
    (oc : RankOutcome) (hok : processRank ws bufferSize r params buf = .ok oc)
    (hne : params ≠ []) :
    oc = ⟨(params.map fillNone).take (greedyCount bufferSize (params.map Param.size) 0)
            ++ ((params.map fillNone).drop
                  (greedyCount bufferSize (params.map Param.size) 0)).map (scaleGrad ws),
          (if 0 < greedyCount bufferSize (params.map Param.size) 0 then
              scale ws (packLoop buf bufferSize (params.map fillNone) 0).1
            else (packLoop buf bufferSize (params.map fillNone) 0).1),
          greedyCount bufferSize (params.map Param.size) 0,
          greedyOffset bufferSize (params.map Param.size) 0,
          (List.range' (greedyCount bufferSize (params.map Param.size) 0)
              (params.length - greedyCount bufferSize (params.map Param.size) 0)).map
            (fun i => (r, i))⟩ := by
  unfold processRank at hok
  rw [if_neg (by simpa [List.isEmpty_iff] using hne)] at hok
  have hcnt : (packLoop buf bufferSize (params.map fillNone) 0).2.1
      = greedyCount bufferSize (params.map Param.size) 0 := by
    rw [packLoop_count, map_fillNone_sizes]
  have hoff : (packLoop buf bufferSize (params.map fillNone) 0).2.2
      = greedyOffset bufferSize (params.map Param.size) 0 := by
    rw [packLoop_offset, map_fillNone_sizes]
  simp only [hcnt, hoff] at hok
  rcases hs : processSuffix ws r (greedyCount bufferSize (params.map Param.size) 0)
      ((params.map fillNone).drop (greedyCount bufferSize (params.map Param.size) 0))
    with e | ⟨s2, i2⟩ <;> rw [hs] at hok
  · cases hok
  · rcases processSuffix_ok_inv _ _ _ _ _ _ hs with ⟨hs2, hi2, -⟩
    cases hok
    rw [hs2, hi2]
    simp

theorem processRank_empty (ws bufferSize r : ℕ) (buf : List ℚ) :
    processRank ws bufferSize r [] buf = .ok ⟨[], buf, 0, 0, []⟩ := by
  simp [processRank]

theorem processRank_packedCount (ws bufferSize r : ℕ) (params : List Param) (buf : List ℚ)
    (oc : RankOutcome) (hok : processRank ws bufferSize r params buf = .ok oc) :
    oc.packedCount = greedyCount bufferSize (params.map Param.size) 0 := by
  by_cases hne : params = []
  · subst hne
    rw [processRank_empty] at hok
    cases hok
    rfl
  · rw [processRank_ok_char ws bufferSize r params buf oc hok hne]

theorem processRank_params_length (ws bufferSize r : ℕ) (params : List Param) (buf : List ℚ)
    (oc : RankOutcome) (hok : processRank ws bufferSize r params buf = .ok oc) :
    oc.params.length = params.length := by
  by_cases hne : params = []
  · subst hne
    rw [processRank_empty] at hok
    cases hok
    rfl
  · rw [processRank_ok_char ws bufferSize r params buf oc hok hne]
    have hk := greedyCount_le_length bufferSize (params.map Param.size) 0
    simp only [List.length_map] at hk
    simp only [List.length_append, List.length_take, List.length_map, List.length_drop]
    omega

theorem processRank_sizes (ws bufferSize r : ℕ) (params : List Param) (buf : List ℚ)
    (oc : RankOutcome) (hok : processRank ws bufferSize r params buf = .ok oc) :
    oc.params.map Param.size = params.map Param.size := by
  by_cases hne : params = []
  · subst hne
    rw [processRank_empty] at hok
    cases hok
    rfl
  · rw [processRank_ok_char ws bufferSize r params buf oc hok hne]
    set k := greedyCount bufferSize (params.map Param.size) 0 with hkdef
    simp only [List.map_append, List.map_map]
    have h1 : List.map Param.size ((params.map fillNone).take k)
        = (params.map Param.size).take k := by
      rw [List.map_take, map_fillNone_sizes]
    have h2 : List.map (Param.size ∘ scaleGrad ws) ((params.map fillNone).drop k)
        = (params.map Param.size).drop k := by
      have hcong : List.map (Param.size ∘ scaleGrad ws) ((params.map fillNone).drop k)
          = List.map Param.size ((params.map fillNone).drop k) :=
        List.map_congr_left (fun a ha => rfl)
      rw [hcong, List.map_drop, map_fillNone_sizes]
    rw [h1, h2, List.take_append_drop]

theorem getD_take_of_lt {α : Type} (l : List α) (k i : ℕ) (d : α) (hi : i < k)
    (hk : k ≤ l.length) : (l.take k).getD i d = l.getD i d := by
  have h1 : i < (l.take k).length := by
    rw [List.length_take]
    omega
  have h2 : i < l.length := by omega
  rw [List.getD_eq_getElem _ _ h1, List.getD_eq_getElem _ _ h2]
  exact List.getElem_take ..

theorem processRank_params_getD_lt (ws bufferSize r : ℕ) (params : List Param)
    (buf : List ℚ) (oc : RankOutcome) (i : ℕ)
    (hok : processRank ws bufferSize r params buf = .ok oc) (hi : i < oc.packedCount) :
    oc.params.getD i default = fillNone (params.getD i default) := by
  have hne : params ≠ [] := by
    intro hcon
    subst hcon
    rw [processRank_empty] at hok
    cases hok
    simp at hi
  have hk := processRank_packedCount ws bufferSize r params buf oc hok
  have hkle : greedyCount bufferSize (params.map Param.size) 0 ≤ params.length := by
    have := greedyCount_le_length bufferSize (params.map Param.size) 0
    simpa using this
  rw [processRank_ok_char ws bufferSize r params buf oc hok hne]
  rw [hk] at hi
  simp only
  rw [List.getD_append _ _ _ _ (by rw [List.length_take]; simp; omega)]
  rw [getD_take_of_lt _ _ _ _ hi (by simpa using hkle)]
  exact getD_map_fillNone params i (by omega)

theorem getD_drop_add {α : Type} (l : List α) (k m : ℕ) (d : α) (h : k + m < l.length) :
    (l.drop k).getD m d = l.getD (k + m) d := by
  have h1 : m < (l.drop k).length := by
    rw [List.length_drop]
    omega
  rw [List.getD_eq_getElem _ _ h1, List.getD_eq_getElem _ _ h]
  exact List.getElem_drop ..

theorem processRank_params_getD_ge (ws bufferSize r : ℕ) (params : List Param)
    (buf : List ℚ) (oc : RankOutcome) (i : ℕ)
    (hok : processRank ws bufferSize r params buf = .ok oc)
    (hge : oc.packedCount ≤ i) (hi : i < params.length) :
    oc.params.getD i default = scaleGrad ws (fillNone (params.getD i default)) := by
  have hne : params ≠ [] := by
    intro hcon
    subst hcon
    simp at hi
  have hk := processRank_packedCount ws bufferSize r params buf oc hok
  rw [processRank_ok_char ws bufferSize r params buf oc hok hne]
  rw [hk] at hge
  set k := greedyCount bufferSize (params.map Param.size) 0 with hkdef
  have hkle : k ≤ params.length := by
    have := greedyCount_le_length bufferSize (params.map Param.size) 0
    simpa [← hkdef] using this
  simp only
  have htl : ((params.map fillNone).take k).length = k := by
    rw [List.length_take]
    simp
    omega
  rw [List.getD_append_right _ _ _ _ (by rw [htl]; omega)]
  rw [htl]
  have hik : k + (i - k) < (params.map fillNone).length := by
    simp
    omega
  have hgd : ((params.map fillNone).drop k).getD (i - k) default
      = (params.map fillNone).getD (k + (i - k)) default := getD_drop_add _ _ _ _ hik
  have hmapD : (((params.map fillNone).drop k).map (scaleGrad ws)).getD (i - k) default
      = scaleGrad ws (((params.map fillNone).drop k).getD (i - k) default) := by
    have hlt : i - k < ((params.map fillNone).drop k).length := by
      simp
      omega
    rw [List.getD_eq_getElem _ _ (by simpa using hlt), List.getD_eq_getElem _ _ hlt]
    exact List.getElem_map ..
  rw [hmapD, hgd]
  have hjj : k + (i - k) = i := by omega
  rw [hjj]
  rw [getD_map_fillNone params i hi]

/-! ### The submission loop over all ranks -/

theorem phaseA_ok_inv (ws bufferSize : ℕ) (prs : List (List Param)) (bufs : List (List ℚ))
    (r : ℕ) (ocs : List RankOutcome) (h : phaseA ws bufferSize r prs bufs = .ok ocs) :
    ocs.length = min prs.length bufs.length ∧
    ∀ i, i < ocs.length →
      processRank ws bufferSize (r + i) (prs.getD i default) (bufs.getD i default)
        = .ok (ocs.getD i default) := by
  induction prs generalizing bufs r ocs with
  | nil =>
    simp only [phaseA] at h
    cases h
    simp
  | cons params prest ih =>
    cases bufs with
    | nil =>
      simp only [phaseA] at h
      cases h
      simp
    | cons buf brest =>
      simp only [phaseA] at h
      rcases hr : processRank ws bufferSize r params buf with e | oc <;> rw [hr] at h
      · cases h
      · rcases ha : phaseA ws bufferSize (r + 1) prest brest with e | rest <;> rw [ha] at h
        · cases h
        · cases h
          rcases ih brest (r + 1) rest ha with ⟨hlen, hall⟩
          constructor
          · simp [hlen]
            omega
          · intro i hi
            cases i with
            | zero => simpa using hr
            | succ i2 =>
              have := hall i2 (by simpa using hi)
              simp only [List.getD_cons_succ]
              have harith : r + (i2 + 1) = r + 1 + i2 := by omega
              rw [harith]
              exact this

/-- A rank list that triggers the RuntimeError: some parameter of the
unpacked suffix (index at or above the greedy packed count) has a gradient
that itself requires grad. -/
def suffixBad (bufferSize : ℕ) (params : List Param) : Prop :=
  ∃ j, greedyCount bufferSize (params.map Param.size) 0 ≤ j ∧ j < params.length ∧
    gradRequires (params.getD j default) = true

theorem phaseA_error_iff (ws bufferSize r : ℕ) (prs : List (List Param))
    (bufs : List (List ℚ)) (e : Err) :
    phaseA ws bufferSize r prs bufs = .error e
      ↔ (e = .runtimeError
          ∧ ∃ i, i < min prs.length bufs.length ∧ suffixBad bufferSize (prs.getD i default)) := by
  induction prs generalizing bufs r with
  | nil =>
    simp only [phaseA]
    constructor
    · intro h
      cases h
    · rintro ⟨-, i, hi, -⟩
      simp at hi
  | cons params prest ih =>
    cases bufs with
    | nil =>
      simp only [phaseA]
      constructor
      · intro h
        cases h
      · rintro ⟨-, i, hi, -⟩
        simp at hi
    | cons buf brest =>
      simp only [phaseA]
      rcases hr : processRank ws bufferSize r params buf with e0 | oc
      · rw [processRank_error_iff] at hr
        constructor
        · intro h
          have h2 : (Except.error e0 : Except Err (List RankOutcome)) = Except.error e := h
          cases h2
          exact ⟨hr.1, 0, by rw [List.length_cons, List.length_cons]; omega, hr.2⟩
        · rintro ⟨he, -⟩
          show (Except.error e0 : Except Err (List RankOutcome)) = Except.error e
          rw [he, hr.1]
      · have hnotbad : ¬ suffixBad bufferSize params := by
          intro hbad
          have hcontra : processRank ws bufferSize r params buf = .error .runtimeError :=
            (processRank_error_iff ws bufferSize r params buf .runtimeError).mpr ⟨rfl, hbad⟩
          rw [hcontra] at hr
          cases hr
        rcases ha : phaseA ws bufferSize (r + 1) prest brest with e1 | rest
        · constructor
          · intro h
            have h2 : (Except.error e1 : Except Err (List RankOutcome)) = Except.error e := h
            cases h2
            rcases (ih (r + 1) brest).mp ha with ⟨h1, i, hi, hbad⟩
            refine ⟨h1, i + 1, ?_, by simpa using hbad⟩
            rw [List.length_cons, List.length_cons]
            omega
          · rintro ⟨he, i, hi, hbad⟩
            cases i with
            | zero => exact absurd (by simpa using hbad) hnotbad
            | succ i2 =>
              rw [List.length_cons, List.length_cons] at hi
              have h2 : phaseA ws bufferSize (r + 1) prest brest = .error e :=
                (ih (r + 1) brest).mpr ⟨he, i2, by omega, by simpa using hbad⟩
              have h3 : (Except.error e : Except Err (List RankOutcome)) = Except.error e1 :=
                h2.symm.trans ha
              show (Except.error e1 : Except Err (List RankOutcome)) = Except.error e
              exact h3.symm
        · constructor
          · intro h
            have h2 : (Except.ok (oc :: rest) : Except Err (List RankOutcome))
                = Except.error e := h
            cases h2
          · rintro ⟨he, i, hi, hbad⟩
            cases i with
            | zero => exact absurd (by simpa using hbad) hnotbad
            | succ i2 =>
              rw [List.length_cons, List.length_cons] at hi
              have h2 : phaseA ws bufferSize (r + 1) prest brest = .error e :=
                (ih (r + 1) brest).mpr ⟨he, i2, by omega, by simpa using hbad⟩
              rw [h2] at ha
              cases ha

/-! ### The wait-and-unpack loop -/

theorem getD_set_self {α : Type} (l : List α) (n : ℕ) (a d : α) (h : n < l.length) :
    (l.set n a).getD n d = a := by
  rw [List.getD_eq_getElem?_getD, List.getElem?_set_self (by omega)]
  rfl

theorem getD_set_ne {α : Type} (l : List α) (n m : ℕ) (a d : α) (h : n ≠ m) :
    (l.set n a).getD m d = l.getD m d := by
  rw [List.getD_eq_getElem?_getD, List.getElem?_set_ne h, ← List.getD_eq_getElem?_getD]

theorem phaseB_params_of_ne (net : ℕ → List ℚ → List ℚ) (bufferSize selfRank : ℕ)
    (rs : List ℕ) (states : List RankOutcome) (r : ℕ) (hr : r ≠ selfRank) :
    ((phaseB net bufferSize selfRank rs states).getD r default).params
      = ((states.getD r default)).params := by
  induction rs generalizing states with
  | nil => rfl
  | cons r2 rest ih =>
    simp only [phaseB]
    rw [ih]
    by_cases hrr : r2 = r
    · subst hrr
    -- the touched rank is r itself, but r is not the calling rank, so only
    -- its buffer changes
      rw [if_neg hr]
      by_cases hlt : r2 < states.length
      · rw [getD_set_self _ _ _ _ hlt]
      · rw [List.set_eq_of_length_le (by omega)]
    · rw [getD_set_ne _ _ _ _ _ hrr]

theorem phaseB_packedCount (net : ℕ → List ℚ → List ℚ) (bufferSize selfRank : ℕ)
    (rs : List ℕ) (states : List RankOutcome) (r : ℕ) :
    ((phaseB net bufferSize selfRank rs states).getD r default).packedCount
      = ((states.getD r default)).packedCount := by
  induction rs generalizing states with
  | nil => rfl
  | cons r2 rest ih =>
    simp only [phaseB]
    rw [ih]
    by_cases hrr : r2 = r
    · subst hrr
      by_cases hlt : r2 < states.length
      · rw [getD_set_self _ _ _ _ hlt]
        by_cases hself : r2 = selfRank <;> simp [hself, unpackRank]
      · rw [List.set_eq_of_length_le (by omega)]
    · rw [getD_set_ne _ _ _ _ _ hrr]

/-! ### Claim C2 -/

/-- C2: packing starts at offset 0 and appends parameters while
`offset + next.size < capacity`; the packed count is exactly the greedy
stopping point (each packed parameter satisfied the strict bound, the first
unpacked one — when it exists — failed it, so no later parameter is
attempted), the final offset equals the sum of the packed sizes and never
exceeds the capacity, and every in-buffer copy stays in bounds (the buffer
keeps its length). -/
theorem C2_greedy_packing (bufferSize : ℕ) (params : List Param) (buf : List ℚ)
    (hbuf : buf.length = bufferSize) (hwf : ∀ p ∈ params, p.WF) :
    (packLoop buf bufferSize params 0).2.1 = greedyCount bufferSize (params.map Param.size) 0
    ∧ (packLoop buf bufferSize params 0).2.1 ≤ params.length
    ∧ (packLoop buf bufferSize params 0).2.2
        = ((params.map Param.size).take (packLoop buf bufferSize params 0).2.1).sum
    ∧ (∀ j < (packLoop buf bufferSize params 0).2.1,
        ((params.map Param.size).take j).sum + (params.map Param.size).getD j 0 < bufferSize)
    ∧ ((packLoop buf bufferSize params 0).2.1 < params.length →
        ¬(((params.map Param.size).take (packLoop buf bufferSize params 0).2.1).sum
            + (params.map Param.size).getD (packLoop buf bufferSize params 0).2.1 0
          < bufferSize))
    ∧ (packLoop buf bufferSize params 0).2.2 ≤ bufferSize
    ∧ (packLoop buf bufferSize params 0).1.length = bufferSize := by
  rw [packLoop_count, packLoop_offset]
  refine ⟨rfl, ?_, ?_, ?_, ?_, ?_, ?_⟩
  · have := greedyCount_le_length bufferSize (params.map Param.size) 0
    simpa using this
  · have := greedyOffset_eq_sum bufferSize (params.map Param.size) 0
    simpa using this
  · intro j hj
    have := greedy_fits bufferSize (params.map Param.size) 0 j hj
    simpa using this
  · intro hlt
    have := greedy_stop bufferSize (params.map Param.size) 0 (by simpa using hlt)
    simpa using this
  · rw [greedyOffset_eq_sum]
    have h1 := greedyOffset_le bufferSize (params.map Param.size) 0 (Nat.zero_le _)
    rw [greedyOffset_eq_sum] at h1
    simpa using h1
  · exact packLoop_length bufferSize params buf 0 hbuf hwf

/-- Witness for C2 on a concrete call: capacity 3, sizes [1, 2] (the second
parameter does not fit since 1 + 2 is not strictly below 3). -/
theorem C2_greedy_packing_witness :
    (([(0 : ℚ), 0, 0] : List ℚ).length = 3
      ∧ ∀ p ∈ [Param.mk 1 0 (some ⟨[2], false⟩), Param.mk 2 0 (some ⟨[4, 6], false⟩)], p.WF)
    ∧ ((packLoop [(0 : ℚ), 0, 0] 3
          [Param.mk 1 0 (some ⟨[2], false⟩), Param.mk 2 0 (some ⟨[4, 6], false⟩)] 0).2.1
        = greedyCount 3
            ([Param.mk 1 0 (some ⟨[2], false⟩), Param.mk 2 0 (some ⟨[4, 6], false⟩)].map
              Param.size) 0
      ∧ (packLoop [(0 : ℚ), 0, 0] 3
          [Param.mk 1 0 (some ⟨[2], false⟩), Param.mk 2 0 (some ⟨[4, 6], false⟩)] 0).2.1
        ≤ [Param.mk 1 0 (some ⟨[2], false⟩), Param.mk 2 0 (some ⟨[4, 6], false⟩)].length
      ∧ (packLoop [(0 : ℚ), 0, 0] 3
          [Param.mk 1 0 (some ⟨[2], false⟩), Param.mk 2 0 (some ⟨[4, 6], false⟩)] 0).2.2
        = (([Param.mk 1 0 (some ⟨[2], false⟩), Param.mk 2 0 (some ⟨[4, 6], false⟩)].map
              Param.size).take
            (packLoop [(0 : ℚ), 0, 0] 3
              [Param.mk 1 0 (some ⟨[2], false⟩), Param.mk 2 0 (some ⟨[4, 6], false⟩)] 0).2.1).sum
      ∧ (∀ j < (packLoop [(0 : ℚ), 0, 0] 3
            [Param.mk 1 0 (some ⟨[2], false⟩), Param.mk 2 0 (some ⟨[4, 6], false⟩)] 0).2.1,
          (([Param.mk 1 0 (some ⟨[2], false⟩), Param.mk 2 0 (some ⟨[4, 6], false⟩)].map
                Param.size).take j).sum
              + ([Param.mk 1 0 (some ⟨[2], false⟩), Param.mk 2 0 (some ⟨[4, 6], false⟩)].map
                  Param.size).getD j 0 < 3)
      ∧ ((packLoop [(0 : ℚ), 0, 0] 3
            [Param.mk 1 0 (some ⟨[2], false⟩), Param.mk 2 0 (some ⟨[4, 6], false⟩)] 0).2.1
          < [Param.mk 1 0 (some ⟨[2], false⟩), Param.mk 2 0 (some ⟨[4, 6], false⟩)].length →
          ¬((([Param.mk 1 0 (some ⟨[2], false⟩), Param.mk 2 0 (some ⟨[4, 6], false⟩)].map
                  Param.size).take
                (packLoop [(0 : ℚ), 0, 0] 3
                  [Param.mk 1 0 (some ⟨[2], false⟩),
                    Param.mk 2 0 (some ⟨[4, 6], false⟩)] 0).2.1).sum
              + ([Param.mk 1 0 (some ⟨[2], false⟩), Param.mk 2 0 (some ⟨[4, 6], false⟩)].map
                  Param.size).getD
                  (packLoop [(0 : ℚ), 0, 0] 3
                    [Param.mk 1 0 (some ⟨[2], false⟩),
                      Param.mk 2 0 (some ⟨[4, 6], false⟩)] 0).2.1 0
            < 3))
      ∧ (packLoop [(0 : ℚ), 0, 0] 3
          [Param.mk 1 0 (some ⟨[2], false⟩), Param.mk 2 0 (some ⟨[4, 6], false⟩)] 0).2.2 ≤ 3
      ∧ (packLoop [(0 : ℚ), 0, 0] 3
          [Param.mk 1 0 (some ⟨[2], false⟩), Param.mk 2 0 (some ⟨[4, 6], false⟩)] 0).1.length
        = 3) :=
  ⟨⟨by decide, by decide⟩,
    C2_greedy_packing 3 [Param.mk 1 0 (some ⟨[2], false⟩), Param.mk 2 0 (some ⟨[4, 6], false⟩)]
      [(0 : ℚ), 0, 0] (by decide) (by decide)⟩

/-! ### Claim C3 -/

/-- C3: in a non-empty rank list every parameter is submitted through
exactly one path: the individual-request list is exactly one request per
suffix index, so an index strictly below the packed count is covered by the
bucket and not individually reduced, and an index at or above it is
individually reduced and not in the bucket — never both, never neither. -/
theorem C3_exactly_one_path (ws bufferSize r : ℕ) (params : List Param) (buf : List ℚ)
    (oc : RankOutcome) (hok : processRank ws bufferSize r params buf = .ok oc)
    (hne : params ≠ []) :
    oc.idxs
      = (List.range' oc.packedCount (params.length - oc.packedCount)).map (fun i => (r, i))
    ∧ oc.packedCount ≤ params.length
    ∧ ∀ i < params.length,
        (i < oc.packedCount ∧ (r, i) ∉ oc.idxs) ∨ (oc.packedCount ≤ i ∧ (r, i) ∈ oc.idxs) := by
  have hchar := processRank_ok_char ws bufferSize r params buf oc hok hne
  have hkle : greedyCount bufferSize (params.map Param.size) 0 ≤ params.length := by
    have := greedyCount_le_length bufferSize (params.map Param.size) 0
    simpa using this
  have hcnt : oc.packedCount = greedyCount bufferSize (params.map Param.size) 0 := by
    rw [hchar]
  have hidxs : oc.idxs
      = (List.range' oc.packedCount (params.length - oc.packedCount)).map (fun i => (r, i)) := by
    rw [hcnt, hchar]
  have hkle2 : oc.packedCount ≤ params.length := by
    rw [hcnt]
    exact hkle
  refine ⟨hidxs, hkle2, ?_⟩
  intro i hi
  have hmem : (r, i) ∈ oc.idxs ↔ oc.packedCount ≤ i := by
    rw [hidxs]
    constructor
    · intro hcon
      rcases List.mem_map.mp hcon with ⟨j, hj, hpair⟩
      have hji : j = i := congrArg Prod.snd hpair
      subst hji
      exact (List.mem_range'_1.mp hj).1
    · intro hle
      refine List.mem_map.mpr ⟨i, ?_, rfl⟩
      exact List.mem_range'_1.mpr ⟨hle, by omega⟩
  by_cases hlt : i < oc.packedCount
  · exact Or.inl ⟨hlt, fun hcon => absurd (hmem.mp hcon) (by omega)⟩
  · exact Or.inr ⟨by omega, hmem.mpr (by omega)⟩

/-- Witness for C3 on a concrete call: capacity 3, sizes [1, 2], rank 0 —
index 0 is packed, index 1 is individually reduced. -/
theorem C3_exactly_one_path_witness :
    (processRank 2 3 0 [Param.mk 1 0 none, Param.mk 2 0 none] [(0 : ℚ), 0, 0]
        = .ok ⟨[Param.mk 1 0 (some ⟨[0], false⟩),
                Param.mk 2 0 (some ⟨[0, 0], false⟩)],
              [(0 : ℚ), 0, 0], 1, 1, [(0, 1)]⟩
      ∧ [Param.mk 1 0 none, Param.mk 2 0 none] ≠ [])
    ∧ ((⟨[Param.mk 1 0 (some ⟨[0], false⟩), Param.mk 2 0 (some ⟨[0, 0], false⟩)],
          [(0 : ℚ), 0, 0], 1, 1, [(0, 1)]⟩ : RankOutcome).idxs
        = (List.range'
            (⟨[Param.mk 1 0 (some ⟨[0], false⟩), Param.mk 2 0 (some ⟨[0, 0], false⟩)],
              [(0 : ℚ), 0, 0], 1, 1, [(0, 1)]⟩ : RankOutcome).packedCount
            ([Param.mk 1 0 none, Param.mk 2 0 none].length
              - (⟨[Param.mk 1 0 (some ⟨[0], false⟩), Param.mk 2 0 (some ⟨[0, 0], false⟩)],
                  [(0 : ℚ), 0, 0], 1, 1, [(0, 1)]⟩ : RankOutcome).packedCount)).map
          (fun i => (0, i))
      ∧ (⟨[Param.mk 1 0 (some ⟨[0], false⟩), Param.mk 2 0 (some ⟨[0, 0], false⟩)],
          [(0 : ℚ), 0, 0], 1, 1, [(0, 1)]⟩ : RankOutcome).packedCount
        ≤ [Param.mk 1 0 none, Param.mk 2 0 none].length
      ∧ ∀ i < [Param.mk 1 0 none, Param.mk 2 0 none].length,
          (i < (⟨[Param.mk 1 0 (some ⟨[0], false⟩), Param.mk 2 0 (some ⟨[0, 0], false⟩)],
                  [(0 : ℚ), 0, 0], 1, 1, [(0, 1)]⟩ : RankOutcome).packedCount
            ∧ (0, i) ∉ (⟨[Param.mk 1 0 (some ⟨[0], false⟩),
                  Param.mk 2 0 (some ⟨[0, 0], false⟩)],
                [(0 : ℚ), 0, 0], 1, 1, [(0, 1)]⟩ : RankOutcome).idxs)
          ∨ ((⟨[Param.mk 1 0 (some ⟨[0], false⟩), Param.mk 2 0 (some ⟨[0, 0], false⟩)],
                [(0 : ℚ), 0, 0], 1, 1, [(0, 1)]⟩ : RankOutcome).packedCount ≤ i
            ∧ (0, i) ∈ (⟨[Param.mk 1 0 (some ⟨[0], false⟩),
                  Param.mk 2 0 (some ⟨[0, 0], false⟩)],
                [(0 : ℚ), 0, 0], 1, 1, [(0, 1)]⟩ : RankOutcome).idxs)) :=
  ⟨⟨by
      norm_num [processRank, packLoop, writeAt, sliceAt, gradData, fillNone, gradRequires,
        processSuffix, scaleGrad, setGradData, scale, List.range', List.replicate_succ,
        List.take_succ_cons, List.drop_succ_cons] <;> decide, by decide⟩,
    C3_exactly_one_path 2 3 0 [Param.mk 1 0 none, Param.mk 2 0 none] [(0 : ℚ), 0, 0]
      ⟨[Param.mk 1 0 (some ⟨[0], false⟩), Param.mk 2 0 (some ⟨[0, 0], false⟩)],
        [(0 : ℚ), 0, 0], 1, 1, [(0, 1)]⟩
      (by
        norm_num [processRank, packLoop, writeAt, sliceAt, gradData, fillNone, gradRequires,
          processSuffix, scaleGrad, setGradData, scale, List.range', List.replicate_succ,
          List.take_succ_cons, List.drop_succ_cons] <;> decide)
      (by decide)⟩

/-! ### Claim C7 -/

/-- C7: a parameter whose gradient slot is absent is not an error — the
slot is filled with zeros of the parameter shape, the parameter keeps its
assigned position (the list length and its size are preserved and the
packed count is determined by the sizes alone), and its submitted gradient
is the zero vector. -/
theorem C7_absent_gradient (ws bufferSize r : ℕ) (params : List Param) (buf : List ℚ)
    (i : ℕ) (hreq : ∀ p ∈ params, gradRequires p = false)
    (hi : i < params.length) (habs : (params.getD i default).grad = none) :
    ∃ oc, processRank ws bufferSize r params buf = .ok oc
      ∧ oc.params.length = params.length
      ∧ oc.packedCount = greedyCount bufferSize (params.map Param.size) 0
      ∧ (oc.params.getD i default).size = (params.getD i default).size
      ∧ gradData (oc.params.getD i default)
          = List.replicate (params.getD i default).size 0 := by
  have hne : params ≠ [] := by
    intro hcon
    subst hcon
    simp at hi
  refine ⟨_, processRank_ok_of ws bufferSize r params buf hne hreq, ?_, ?_, ?_, ?_⟩
  · exact processRank_params_length ws bufferSize r params buf _
      (processRank_ok_of ws bufferSize r params buf hne hreq)
  · exact processRank_packedCount ws bufferSize r params buf _
      (processRank_ok_of ws bufferSize r params buf hne hreq)
  all_goals {
    have hok := processRank_ok_of ws bufferSize r params buf hne hreq
    set oc := ((⟨(params.map fillNone).take (greedyCount bufferSize (params.map Param.size) 0)
            ++ ((params.map fillNone).drop
                  (greedyCount bufferSize (params.map Param.size) 0)).map (scaleGrad ws),
          (if 0 < greedyCount bufferSize (params.map Param.size) 0 then
              scale ws (packLoop buf bufferSize (params.map fillNone) 0).1
            else (packLoop buf bufferSize (params.map fillNone) 0).1),
          greedyCount bufferSize (params.map Param.size) 0,
          greedyOffset bufferSize (params.map Param.size) 0,
          (List.range' (greedyCount bufferSize (params.map Param.size) 0)
              (params.length - greedyCount bufferSize (params.map Param.size) 0)).map
            (fun j => (r, j))⟩ : RankOutcome)) with hocdef
    have hcnt := processRank_packedCount ws bufferSize r params buf oc hok
    by_cases hlt : i < oc.packedCount
    · rw [processRank_params_getD_lt ws bufferSize r params buf oc i hok hlt]
      first
      | rw [fillNone_size]
      | {rw [fillNone_gradData]
         simp only [gradData]
         rw [habs]}
    · rw [processRank_params_getD_ge ws bufferSize r params buf oc i hok (by omega) hi]
      first
      | rw [scaleGrad_size, fillNone_size]
      | {rw [scaleGrad_gradData, fillNone_gradData]
         simp only [gradData]
         rw [habs, scale_replicate_zero]}
  }

/-- Witness for C7: world size 2, capacity 3, sizes [1, 2], both gradient
slots absent; index 1 (the individually reduced parameter) is checked. -/
theorem C7_absent_gradient_witness :
    ((∀ p ∈ [Param.mk 1 0 none, Param.mk 2 0 none], gradRequires p = false)
      ∧ 1 < [Param.mk 1 0 none, Param.mk 2 0 none].length
      ∧ ([Param.mk 1 0 none, Param.mk 2 0 none].getD 1 default).grad = none)
    ∧ ∃ oc, processRank 2 3 0 [Param.mk 1 0 none, Param.mk 2 0 none] [(0 : ℚ), 0, 0] = .ok oc
      ∧ oc.params.length = [Param.mk 1 0 none, Param.mk 2 0 none].length
      ∧ oc.packedCount
          = greedyCount 3 ([Param.mk 1 0 none, Param.mk 2 0 none].map Param.size) 0
      ∧ (oc.params.getD 1 default).size
          = ([Param.mk 1 0 none, Param.mk 2 0 none].getD 1 default).size
      ∧ gradData (oc.params.getD 1 default)
          = List.replicate ([Param.mk 1 0 none, Param.mk 2 0 none].getD 1 default).size 0 :=
  ⟨⟨by decide, by decide, by decide⟩,
    C7_absent_gradient 2 3 0 [Param.mk 1 0 none, Param.mk 2 0 none] [(0 : ℚ), 0, 0] 1
      (by decide) (by decide) (by decide)⟩

theorem reduce_grads_task_cons (net : ℕ → List ℚ → List ℚ) (ws : ℕ) (b0 : List ℚ)
    (brest : List (List ℚ)) (pp : List (List Param)) (selfRank : ℕ) :
    reduce_grads_task net ws (b0 :: brest) pp selfRank
      = match phaseA ws b0.length 0 pp (b0 :: brest) with
        | .error e => .error e
        | .ok ocs => .ok ⟨phaseB net b0.length selfRank (bucketRanks ocs) ocs,
            bucketRanks ocs, (ocs.map RankOutcome.idxs).flatten⟩ := rfl

theorem reduce_grads_task_of_phaseA_error (net : ℕ → List ℚ → List ℚ) (ws : ℕ) (b0 : List ℚ)
    (brest : List (List ℚ)) (pp : List (List Param)) (selfRank : ℕ) (e : Err)
    (ha : phaseA ws b0.length 0 pp (b0 :: brest) = .error e) :
    reduce_grads_task net ws (b0 :: brest) pp selfRank = .error e := by
  rw [reduce_grads_task_cons, ha]

theorem reduce_grads_task_of_phaseA_ok (net : ℕ → List ℚ → List ℚ) (ws : ℕ) (b0 : List ℚ)
    (brest : List (List ℚ)) (pp : List (List Param)) (selfRank : ℕ)
    (ocs : List RankOutcome) (ha : phaseA ws b0.length 0 pp (b0 :: brest) = .ok ocs) :
    reduce_grads_task net ws (b0 :: brest) pp selfRank
      = .ok ⟨phaseB net b0.length selfRank (bucketRanks ocs) ocs,
          bucketRanks ocs, (ocs.map RankOutcome.idxs).flatten⟩ := by
  rw [reduce_grads_task_cons, ha]

/-! ### Claim C8 -/

/-- C8: the dispatch raises the RuntimeError if and only if some rank list
has a parameter of the unpacked suffix (index at or above the greedy packed
count — packed-prefix gradients are never subject to the check) whose
gradient itself requires grad; moreover any other raised error is the
IndexError of subscripting an empty buffer list, so the RuntimeError is the
only fatal error a well-formed construction can hit. -/
theorem C8_requires_grad_error (net : ℕ → List ℚ → List ℚ) (ws : ℕ)
    (buffers : List (List ℚ)) (pp : List (List Param)) (selfRank : ℕ) :
    ((reduce_grads_task net ws buffers pp selfRank = .error .runtimeError)
      ↔ ∃ i, i < min pp.length buffers.length
          ∧ suffixBad (buffers.headD []).length (pp.getD i default))
    ∧ (∀ e, reduce_grads_task net ws buffers pp selfRank = .error e →
        e = .runtimeError ∨ (e = .indexError ∧ buffers = [])) := by
  cases buffers with
  | nil =>
    constructor
    · constructor
      · intro h
        cases h
      · rintro ⟨i, hi, -⟩
        simp at hi
    · intro e he
      have h2 : (Except.error Err.indexError : Except Err TaskResult) = Except.error e := he
      cases h2
      exact Or.inr ⟨rfl, rfl⟩
  | cons b0 brest =>
    rcases ha : phaseA ws b0.length 0 pp (b0 :: brest) with e0 | ocs
    · have htask := reduce_grads_task_of_phaseA_error net ws b0 brest pp selfRank e0 ha
      rw [phaseA_error_iff] at ha
      rw [htask]
      constructor
      · constructor
        · intro h
          cases h
          simpa using ha.2
        · intro hex
          rw [ha.1]
      · intro e he
        cases he
        exact Or.inl ha.1
    · have htask := reduce_grads_task_of_phaseA_ok net ws b0 brest pp selfRank ocs ha
      rw [htask]
      constructor
      · constructor
        · intro h
          cases h
        · rintro ⟨i, hi, hbad⟩
          have hcontra : phaseA ws b0.length 0 pp (b0 :: brest) = .error .runtimeError := by
            rw [phaseA_error_iff]
            exact ⟨rfl, i, by simpa using hi, by simpa using hbad⟩
          rw [hcontra] at ha
          cases ha
      · intro e he
        cases he

/-! ### Claim C10 -/

/-- C10: during a dispatch only the calling rank bucket is unpacked into
gradient slots: for every packed-prefix parameter of a rank other than the
calling rank — whatever the transport oracle `net` returns at the waits —
the final local gradient slot is exactly its value at the moment packing
began (the absent-slot zero-fill applied to the initial parameter); the
reducer never writes it afterwards. -/
theorem C10_frame_other_ranks (net : ℕ → List ℚ → List ℚ) (ws : ℕ)
    (buffers : List (List ℚ)) (pp : List (List Param)) (selfRank : ℕ) (res : TaskResult)
    (hok : reduce_grads_task net ws buffers pp selfRank = .ok res)
    (r : ℕ) (hr : r ≠ selfRank) (i : ℕ)
    (hi : i < (res.perRank.getD r default).packedCount) :
    (res.perRank.getD r default).params.getD i default
      = fillNone ((pp.getD r default).getD i default) := by
  cases buffers with
  | nil => cases hok
  | cons b0 brest =>
    rcases ha : phaseA ws b0.length 0 pp (b0 :: brest) with e0 | ocs
    · rw [reduce_grads_task_of_phaseA_error net ws b0 brest pp selfRank e0 ha] at hok
      cases hok
    · rw [reduce_grads_task_of_phaseA_ok net ws b0 brest pp selfRank ocs ha] at hok
      cases hok
      have hi2 : i < (((phaseB net b0.length selfRank (bucketRanks ocs) ocs).getD r
          default)).packedCount := hi
      rw [phaseB_packedCount net b0.length selfRank (bucketRanks ocs) ocs r] at hi2
      show ((phaseB net b0.length selfRank (bucketRanks ocs) ocs).getD r
          default).params.getD i default = fillNone ((pp.getD r default).getD i default)
      rw [phaseB_params_of_ne net b0.length selfRank (bucketRanks ocs) ocs r hr]
      rcases phaseA_ok_inv ws b0.length pp (b0 :: brest) 0 ocs ha with ⟨hlen, hall⟩
      by_cases hrlen : r < ocs.length
      · have hproc := hall r hrlen
        rw [Nat.zero_add] at hproc
        exact processRank_params_getD_lt ws b0.length r _ _ _ i hproc hi2
      · have hdef : (default : RankOutcome).packedCount = 0 := rfl
        rw [List.getD_eq_default _ _ (by omega), hdef] at hi2
        omega

/-- Witness for C10: two ranks, calling rank 0, world size 1 (identity
transport), each rank owning one packed parameter; the rank-1 parameter is
untouched while the rank-0 bucket is unpacked. -/
theorem C10_frame_other_ranks_witness :
    (reduce_grads_task (fun _ b => b) 1 [[(0 : ℚ), 0], [(0 : ℚ), 0]]
        [[Param.mk 1 0 (some ⟨[3], false⟩)], [Param.mk 1 0 (some ⟨[7], false⟩)]] 0
      = .ok ⟨[⟨[Param.mk 1 0 (some ⟨[3], false⟩)], [(3 : ℚ), 0], 1, 1, []⟩,
              ⟨[Param.mk 1 0 (some ⟨[7], false⟩)], [(7 : ℚ), 0], 1, 1, []⟩],
          [0, 1], []⟩
      ∧ (1 : ℕ) ≠ 0
      ∧ 0 < ((⟨[⟨[Param.mk 1 0 (some ⟨[3], false⟩)], [(3 : ℚ), 0], 1, 1, []⟩,
              ⟨[Param.mk 1 0 (some ⟨[7], false⟩)], [(7 : ℚ), 0], 1, 1, []⟩],
          [0, 1], []⟩ : TaskResult).perRank.getD 1 default).packedCount)
    ∧ ((⟨[⟨[Param.mk 1 0 (some ⟨[3], false⟩)], [(3 : ℚ), 0], 1, 1, []⟩,
            ⟨[Param.mk 1 0 (some ⟨[7], false⟩)], [(7 : ℚ), 0], 1, 1, []⟩],
        [0, 1], []⟩ : TaskResult).perRank.getD 1 default).params.getD 0 default
      = fillNone (([[Param.mk 1 0 (some ⟨[3], false⟩)],
          [Param.mk 1 0 (some ⟨[7], false⟩)]].getD 1 default).getD 0 default) :=
  ⟨⟨by
      norm_num [reduce_grads_task, phaseA, phaseB, bucketRanks, unpackRank, unpackLoop,
        processRank, packLoop, writeAt, sliceAt, processSuffix, scaleGrad, setGradData,
        scale, gradData, gradRequires, fillNone, List.range', List.replicate_succ,
        List.take_succ_cons, List.drop_succ_cons, List.range, List.range.loop, List.filter,
        List.getD, List.set] <;> decide,
    by decide, by decide⟩,
    C10_frame_other_ranks (fun _ b => b) 1 [[(0 : ℚ), 0], [(0 : ℚ), 0]]
      [[Param.mk 1 0 (some ⟨[3], false⟩)], [Param.mk 1 0 (some ⟨[7], false⟩)]] 0
      ⟨[⟨[Param.mk 1 0 (some ⟨[3], false⟩)], [(3 : ℚ), 0], 1, 1, []⟩,
          ⟨[Param.mk 1 0 (some ⟨[7], false⟩)], [(7 : ℚ), 0], 1, 1, []⟩],
        [0, 1], []⟩
      (by
        norm_num [reduce_grads_task, phaseA, phaseB, bucketRanks, unpackRank, unpackLoop,
          processRank, packLoop, writeAt, sliceAt, processSuffix, scaleGrad, setGradData,
          scale, gradData, gradRequires, fillNone, List.range', List.replicate_succ,
          List.take_succ_cons, List.drop_succ_cons, List.range, List.range.loop,
          List.filter, List.getD, List.set] <;> decide)
      1 (by decide) 0 (by decide)⟩

/-! ### Claim C9 -/

/-- Concrete scenario A: rank 0 owns parameters of sizes [10, 20, 5000]
(ascending); the other three ranks of the world-size-4 group own nothing on
this device. -/
def scenarioAParams : List (List Param) :=
  [[⟨10, 0, none⟩, ⟨20, 0, none⟩, ⟨5000, 0, none⟩], [], [], []]

/-- Concrete scenario A: one 1000-element buffer per rank. -/
def scenarioABuffers : List (List ℚ) :=
  [List.replicate 1000 0, List.replicate 1000 0, List.replicate 1000 0,
    List.replicate 1000 0]

set_option maxRecDepth 1000000

/-- C9: with world size 4, capacity 1000 and rank-0 sizes [10, 20, 5000],
dispatch packs exactly the prefix [10, 20] (packed count 2, final offset
30), issues exactly one bucket reduce (for rank 0) and one individual
reduce (parameter index 2, the 5000-element parameter) — exactly 2 async
operations for rank 0 on this device, and no operation for any other
rank. -/
theorem C9_scenario_A :
    ((reduce_grads_task (fun _ b => b) 4 scenarioABuffers scenarioAParams 0).toOption.map
        (fun res => ((res.perRank.getD 0 default).packedCount,
          (res.perRank.getD 0 default).finalOffset)))
      = some (2, 30)
    ∧ ((reduce_grads_task (fun _ b => b) 4 scenarioABuffers scenarioAParams 0).toOption.map
        (fun res => (res.buckets, res.individualIdx)))
      = some ([0], [(0, 2)])
    ∧ ((reduce_grads_task (fun _ b => b) 4 scenarioABuffers scenarioAParams 0).toOption.map
        (fun res =>
          res.buckets.count 0 + (res.individualIdx.filter (fun q => q.1 = 0)).length))
      = some 2 := by
  refine ⟨by decide, by decide, by decide⟩

set_option maxRecDepth 512

/-! ### Claim C4 (corrected) -/

/-- Two devices: device 0 holds one parameter of 10 elements, device 1 one
parameter of 20 elements. -/
def twoDeviceAssign : List (List (List Param)) :=
  [[[⟨10, 0, none⟩]], [[⟨20, 0, none⟩]]]

/-- C4 counterexample: with ceiling 100 and the two-device assignment the
construction gives EVERY buffer capacity min(100, 10 + 20) = 30 — the code
clamps by the element total of all model parameters over all devices — while
the claimed per-device formula gives min(100, 10) = 10 for device 0. -/
theorem C4_counterexample :
    ((initBuffers 100 [10, 20] twoDeviceAssign).toOption.map
        (fun out => out.map (fun dev => dev.map (fun b => b.data.length))))
      = some [[30], [30]]
    ∧ specDeviceCapacity 100 [[⟨10, 0, none⟩]] = 10
    ∧ (30 : ℕ) ≠ 10 := by
  refine ⟨by decide, ?_, by decide⟩
  rfl

/-- C4 amended: at construction every allocated ReduceBuffer — on every
device — has capacity min(configured ceiling, total element count of ALL
model parameters across ALL devices), the model total being the sum of the
per-device totals. -/
theorem C4_amended (ceiling : ℕ) (modelSizes : List ℕ)
    (devices : List (List (List Param))) (out : List (List RBuffer))
    (hout : initBuffers ceiling modelSizes devices = .ok out)
    (hpartition : modelSizes.sum = (devices.map deviceTotal).sum) :
    ∀ dev ∈ out, ∀ b ∈ dev,
      b.data.length = min ceiling ((devices.map deviceTotal).sum) := by
  rw [← hpartition]
  unfold initBuffers at hout
  set bs := min ceiling modelSizes.sum with hbs
  clear_value bs
  clear hpartition
  induction devices generalizing out with
  | nil =>
    simp only [initLoop] at hout
    cases hout
    intro dev hdev
    cases hdev
  | cons d drest ih =>
    simp only [initLoop] at hout
    rcases hd : allocDevice bs d with e | bufs <;> rw [hd] at hout
    · cases hout
    · rcases hrest : initLoop bs drest with e | out2 <;> rw [hrest] at hout
      · cases hout
      · cases hout
        intro dev hdev b hb
        rcases List.mem_cons.mp hdev with rfl | hdev2
        · unfold allocDevice at hd
          rcases d with - | ⟨l0, dtail⟩
          · cases hd
          · rcases l0 with - | ⟨p0, ltail⟩
            · cases hd
            · have hd2 : (((p0 :: ltail) :: dtail).map
                  (fun _ => (⟨p0.dtype, List.replicate bs 0⟩ : RBuffer))) = dev := by
                cases hd
                rfl
              rw [← hd2] at hb
              rcases List.mem_map.mp hb with ⟨-, -, rfl⟩
              simp
        · exact ih out2 hrest dev hdev2 b hb

/-- Witness for C4 amended, on the two-device assignment with ceiling 100:
every buffer capacity is min(100, 30) = 30. -/
theorem C4_amended_witness :
    (initBuffers 100 [10, 20] twoDeviceAssign
        = .ok [[⟨0, List.replicate 30 0⟩], [⟨0, List.replicate 30 0⟩]]
      ∧ ([10, 20] : List ℕ).sum = (twoDeviceAssign.map deviceTotal).sum)
    ∧ ∀ dev ∈ ([[(⟨0, List.replicate 30 0⟩ : RBuffer)], [⟨0, List.replicate 30 0⟩]] :
          List (List RBuffer)), ∀ b ∈ dev,
        b.data.length = min 100 ((twoDeviceAssign.map deviceTotal).sum) :=
  ⟨⟨by decide, by decide⟩,
    C4_amended 100 [10, 20] twoDeviceAssign
      [[⟨0, List.replicate 30 0⟩], [⟨0, List.replicate 30 0⟩]] (by decide) (by decide)⟩

/-! ### Claim C5 (corrected) -/

/-- One device whose two parameters have different dtypes (tags 0 and 1). -/
def mixedDtypeDevice : List (List Param) := [[⟨1, 0, none⟩, ⟨1, 1, none⟩]]

/-- C5 counterexample: construction over a device holding parameters of two
different dtypes raises nothing — it returns buffers (tagged with the dtype
of the first parameter) although the spec-side uniformity condition is
violated. There is no dtype check in `ModelDispatch.__init__`. -/
theorem C5_counterexample :
    (initBuffers 10 [1, 1] [mixedDtypeDevice]).toOption.isSome = true
    ∧ ¬ specDtypeUniform mixedDtypeDevice := by
  constructor
  · decide
  · decide

/-- C5 amended: construction takes the buffer dtype from the first
parameter of the device and performs no dtype comparison: whenever the
first rank list of the device is non-empty it succeeds, whatever the other
dtypes are. -/
theorem C5_amended (bufferSize : ℕ) (perDevice : List (List Param)) (p0 : Param)
    (l0 : List Param) (rest : List (List Param)) (hshape : perDevice = (p0 :: l0) :: rest) :
    allocDevice bufferSize perDevice
      = .ok (perDevice.map (fun _ => ⟨p0.dtype, List.replicate bufferSize 0⟩)) := by
  subst hshape
  rfl

/-- Witness for C5 amended on the mixed-dtype device. -/
theorem C5_amended_witness :
    (mixedDtypeDevice
        = [Param.mk 1 0 none, Param.mk 1 1 none] :: ([] : List (List Param)))
    ∧ allocDevice 10 mixedDtypeDevice
        = .ok (mixedDtypeDevice.map (fun _ => ⟨(Param.mk 1 0 none).dtype,
            List.replicate 10 0⟩)) :=
  ⟨by decide,
    C5_amended 10 mixedDtypeDevice (Param.mk 1 0 none) [Param.mk 1 1 none] [] (by decide)⟩

/-! ### Claim C6 (corrected) -/

/-- One rank owning one 1-element parameter with gradient value 5. -/
def c6Params : List (List Param) := [[⟨1, 0, some ⟨[5], false⟩⟩]]

/-- C6 counterexample: with world size 1 (the reduce of a single-rank group
is the identity, so the transport oracle is `fun _ b => b`) a dispatch on a
zero buffer of capacity 2 leaves [5, 0] in the persistent buffer; the state
handed to the next dispatch call — the buffer on which its packing begins —
is [5, 0] ≠ [0, 0]. Buffers are NOT zero-initialized before each reuse. -/
theorem C6_counterexample :
    ((dispatchStep (fun _ b => b) 1 0 ([[(0 : ℚ), 0]], c6Params)).toOption.map
        (fun st => st.1.1)) = some [[(5 : ℚ), 0]]
    ∧ ([[(5 : ℚ), 0]] : List (List ℚ)) ≠ [[0, 0]]
    ∧ ((dispatchStep (fun _ b => b) 1 0 ([[(5 : ℚ), 0]], c6Params)).toOption.map
        (fun st => st.1.1)) = some [[(5 : ℚ), 0]] := by
  refine ⟨?_, ?_, ?_⟩ <;>
    norm_num [dispatchStep, reduce_grads_task, phaseA, phaseB, bucketRanks, unpackRank,
      unpackLoop, processRank, packLoop, writeAt, sliceAt, processSuffix, scaleGrad,
      setGradData, scale, gradData, gradRequires, fillNone, List.range',
      List.replicate_succ, List.take_succ_cons, List.drop_succ_cons, List.range,
      List.range.loop, List.filter, List.getD, List.set, c6Params, Except.toOption]

/-- C6 amended: buffers are zero-initialized at construction only;
`dispatch_grads` performs no re-zeroing, so the buffers a dispatch call
leaves behind are exactly the buffers the next call starts packing into. -/
theorem C6_amended (ceiling : ℕ) (modelSizes : List ℕ)
    (devices : List (List (List Param))) (out : List (List RBuffer))
    (hout : initBuffers ceiling modelSizes devices = .ok out) :
    (∀ dev ∈ out, ∀ b ∈ dev, b.data = List.replicate (min ceiling modelSizes.sum) 0)
    ∧ ∀ (net : ℕ → List ℚ → List ℚ) (ws selfRank : ℕ)
        (st : List (List ℚ) × List (List Param))
        (st2 : List (List ℚ) × List (List Param)) (res : TaskResult),
        dispatchStep net ws selfRank st = .ok (st2, res) →
        st2.1 = res.perRank.map RankOutcome.buffer := by
  constructor
  · unfold initBuffers at hout
    set bs := min ceiling modelSizes.sum with hbs
    clear_value bs
    induction devices generalizing out with
    | nil =>
      simp only [initLoop] at hout
      cases hout
      intro dev hdev
      cases hdev
    | cons d drest ih =>
      simp only [initLoop] at hout
      rcases hd : allocDevice bs d with e | bufs <;> rw [hd] at hout
      · cases hout
      · rcases hrest : initLoop bs drest with e | out2 <;> rw [hrest] at hout
        · cases hout
        · cases hout
          intro dev hdev b hb
          rcases List.mem_cons.mp hdev with rfl | hdev2
          · unfold allocDevice at hd
            rcases d with - | ⟨l0, dtail⟩
            · cases hd
            · rcases l0 with - | ⟨p0, ltail⟩
              · cases hd
              · have hd2 : (((p0 :: ltail) :: dtail).map
                    (fun _ => (⟨p0.dtype, List.replicate bs 0⟩ : RBuffer))) = dev := by
                  cases hd
                  rfl
                rw [← hd2] at hb
                rcases List.mem_map.mp hb with ⟨-, -, rfl⟩
                rfl
          · exact ih out2 hrest dev hdev2 b hb
  · intro net ws selfRank st st2 res hstep
    unfold dispatchStep at hstep
    rcases ht : reduce_grads_task net ws st.1 st.2 selfRank with e | res2 <;> rw [ht] at hstep
    · cases hstep
    · cases hstep
      rfl

/-- Witness for C6 amended: the two-device construction with ceiling 100
yields buffers of 30 zeros each. -/
theorem C6_amended_witness :
    (initBuffers 100 [10, 20] twoDeviceAssign
        = .ok [[⟨0, List.replicate 30 0⟩], [⟨0, List.replicate 30 0⟩]])
    ∧ (∀ dev ∈ ([[(⟨0, List.replicate 30 0⟩ : RBuffer)], [⟨0, List.replicate 30 0⟩]] :
          List (List RBuffer)), ∀ b ∈ dev, b.data = List.replicate (min 100 (10 + 20)) 0)
      ∧ ∀ (net : ℕ → List ℚ → List ℚ) (ws selfRank : ℕ)
          (st : List (List ℚ) × List (List Param))
          (st2 : List (List ℚ) × List (List Param)) (res : TaskResult),
          dispatchStep net ws selfRank st = .ok (st2, res) →
          st2.1 = res.perRank.map RankOutcome.buffer :=
  ⟨by decide,
    by
      have h := C6_amended 100 [10, 20] twoDeviceAssign
        [[⟨0, List.replicate 30 0⟩], [⟨0, List.replicate 30 0⟩]] (by decide)
      simpa using h⟩

/-! ### Claim C1: per-rank submission values -/

theorem getD_mem_of_lt {α : Type} (l : List α) (n : ℕ) (d : α) (h : n < l.length) :
    l.getD n d ∈ l := by
  rw [List.getD_eq_getElem _ _ h]
  exact List.getElem_mem h

theorem processRank_buffer_slice (ws bufferSize r : ℕ) (sizes : List ℕ) (l : List Param)
    (b : List ℚ) (oc : RankOutcome) (j : ℕ)
    (hok : processRank ws bufferSize r l b = .ok oc)
    (hsz : l.map Param.size = sizes) (hwf : ∀ p ∈ l, p.WF) (hb : b.length = bufferSize)
    (hj : j < greedyCount bufferSize sizes 0) :
    sliceAt oc.buffer ((sizes.take j).sum) (sizes.getD j 0)
      = scale ws (gradData (l.getD j default)) := by
  have hlen : sizes.length = l.length := by
    rw [← hsz, List.length_map]
  have hkle : greedyCount bufferSize sizes 0 ≤ sizes.length :=
    greedyCount_le_length bufferSize sizes 0
  have hne : l ≠ [] := by
    intro hcon
    rw [hcon] at hlen
    simp only [List.length_nil] at hlen
    omega
  have hchar := processRank_ok_char ws bufferSize r l b oc hok hne
  have hwf1 : ∀ p ∈ l.map fillNone, p.WF := by
    intro p hp
    rcases List.mem_map.mp hp with ⟨q, hq, rfl⟩
    exact fillNone_WF q (hwf q hq)
  have hsz1 : (l.map fillNone).map Param.size = sizes := by
    rw [map_fillNone_sizes, hsz]
  have hbuf : oc.buffer = scale ws (packLoop b bufferSize (l.map fillNone) 0).1 := by
    rw [hchar]
    simp only [hsz]
    rw [if_pos (by omega)]
  rw [hbuf, sliceAt_scale]
  have hslice := packLoop_slice bufferSize (l.map fillNone) b 0 j hb hwf1
    (by rw [hsz1]; exact hj)
  rw [hsz1] at hslice
  rw [Nat.zero_add] at hslice
  rw [hslice, getD_map_fillNone l j (by omega), fillNone_gradData]

theorem processRank_grad_ge (ws bufferSize r : ℕ) (l : List Param) (b : List ℚ)
    (oc : RankOutcome) (j : ℕ) (hok : processRank ws bufferSize r l b = .ok oc)
    (hge : greedyCount bufferSize (l.map Param.size) 0 ≤ j) (hj : j < l.length) :
    gradData (oc.params.getD j default) = scale ws (gradData (l.getD j default)) := by
  have hcnt := processRank_packedCount ws bufferSize r l b oc hok
  rw [processRank_params_getD_ge ws bufferSize r l b oc j hok (by omega) hj]
  rw [scaleGrad_gradData, fillNone_gradData]

/-- C1: the value observed by the owner of a parameter after dispatch is
the sum over all executing ranks of that rank's local gradient, divided by
`world_size`, scaled exactly once on each path.  `locals` lists, for each
executing rank, its local copy of the owner rank-`r` parameter list (same
sizes everywhere, gradient values free); `ocs` the per-rank submission
outcomes.  For a packed index `j` the slice of the pointwise sum of the
submitted buffers — the buffer content the transport materializes at the
owner — equals `(Σ local gradients)/ws`, and unpacking that summed buffer
at the owner writes exactly this value into the slot of parameter `j`; for
a suffix index the pointwise sum of the individually submitted gradient
tensors equals the same once-scaled value. -/
theorem C1_scale_once (ws bufferSize r : ℕ) (sizes : List ℕ)
    (locals : List (List Param)) (bufs : List (List ℚ)) (ocs : List RankOutcome) (j : ℕ)
    (hsz : ∀ l ∈ locals, l.map Param.size = sizes)
    (hwf : ∀ l ∈ locals, ∀ p ∈ l, p.WF)
    (hbl : bufs.length = locals.length)
    (hb : ∀ b ∈ bufs, b.length = bufferSize)
    (hol : ocs.length = locals.length)
    (hok : ∀ i, i < locals.length →
      processRank ws bufferSize r (locals.getD i default) (bufs.getD i default)
        = .ok (ocs.getD i default))
    (hj : j < sizes.length) :
    (j < greedyCount bufferSize sizes 0 →
      sliceAt (sumAll bufferSize (ocs.map RankOutcome.buffer)) ((sizes.take j).sum)
          (sizes.getD j 0)
        = scale ws (sumAll (sizes.getD j 0) (locals.map (fun l => gradData (l.getD j default))))
      ∧ (r < locals.length →
          gradData ((unpackLoop (sumAll bufferSize (ocs.map RankOutcome.buffer)) bufferSize
              ((ocs.getD r default).params) 0).getD j default)
            = scale ws
                (sumAll (sizes.getD j 0) (locals.map (fun l => gradData (l.getD j default))))))
    ∧ (greedyCount bufferSize sizes 0 ≤ j →
        sumAll (sizes.getD j 0) (ocs.map (fun oc => gradData (oc.params.getD j default)))
          = scale ws
              (sumAll (sizes.getD j 0) (locals.map (fun l => gradData (l.getD j default))))) := by
  constructor
  · intro hjk
    have hfits := greedy_fits bufferSize sizes 0 j hjk
    have hofflen : (sizes.take j).sum + sizes.getD j 0 ≤ bufferSize := by omega
    have hmapeq : ocs.map (fun oc => sliceAt oc.buffer ((sizes.take j).sum) (sizes.getD j 0))
        = locals.map (fun l => scale ws (gradData (l.getD j default))) := by
      apply List.ext_getElem (by rw [List.length_map, List.length_map, hol])
      intro n h1 h2
      rw [List.getElem_map, List.getElem_map]
      rw [List.length_map, hol] at h1
      have hproc := hok n h1
      rw [List.getD_eq_getElem _ _ (by omega : n < ocs.length),
        List.getD_eq_getElem _ _ (by rw [List.length_map] at h2; exact h2)] at hproc
      have hmem : locals[n] ∈ locals := List.getElem_mem _
      exact processRank_buffer_slice ws bufferSize r sizes locals[n]
        (bufs.getD n default) ocs[n] j hproc (hsz _ hmem) (hwf _ hmem)
        (hb _ (getD_mem_of_lt bufs n default (by omega))) hjk
    have hmain : sliceAt (sumAll bufferSize (ocs.map RankOutcome.buffer))
        ((sizes.take j).sum) (sizes.getD j 0)
        = scale ws
            (sumAll (sizes.getD j 0) (locals.map (fun l => gradData (l.getD j default)))) := by
      rw [sliceAt_sumAll bufferSize _ _ _ hofflen, List.map_map]
      have hcomp : (fun x => sliceAt x ((sizes.take j).sum) (sizes.getD j 0))
            ∘ RankOutcome.buffer
          = fun oc => sliceAt oc.buffer ((sizes.take j).sum) (sizes.getD j 0) := rfl
      rw [hcomp, hmapeq]
      have hcomp2 : (locals.map (fun l => scale ws (gradData (l.getD j default))))
          = (locals.map (fun l => gradData (l.getD j default))).map (scale ws) := by
        rw [List.map_map]
        rfl
      rw [hcomp2, sumAll_map_scale]
    refine ⟨hmain, ?_⟩
    intro hrlen
    have hproc := hok r hrlen
    have hsizes_owner : ((ocs.getD r default).params).map Param.size = sizes := by
      rw [processRank_sizes ws bufferSize r _ _ _ hproc]
      exact hsz _ (getD_mem_of_lt locals r default (by omega))
    have hunp := unpackLoop_getD_lt (sumAll bufferSize (ocs.map RankOutcome.buffer))
      bufferSize ((ocs.getD r default).params) 0 j (by rw [hsizes_owner]; exact hjk)
    rw [hsizes_owner, Nat.zero_add] at hunp
    rw [hunp, setGradData_gradData]
    exact hmain
  · intro hjk
    have hmapeq : ocs.map (fun oc => gradData (oc.params.getD j default))
        = locals.map (fun l => scale ws (gradData (l.getD j default))) := by
      apply List.ext_getElem (by rw [List.length_map, List.length_map, hol])
      intro n h1 h2
      rw [List.getElem_map, List.getElem_map]
      rw [List.length_map, hol] at h1
      have hproc := hok n h1
      rw [List.getD_eq_getElem _ _ (by omega : n < ocs.length),
        List.getD_eq_getElem _ _ (by rw [List.length_map] at h2; exact h2)] at hproc
      have hmem : locals[n] ∈ locals := List.getElem_mem _
      refine processRank_grad_ge ws bufferSize r locals[n] (bufs.getD n default) ocs[n] j
        hproc ?_ ?_
      · rw [hsz _ hmem]
        exact hjk
      · have := congrArg List.length (hsz _ hmem)
        rw [List.length_map] at this
        omega
    rw [hmapeq]
    have hcomp2 : (locals.map (fun l => scale ws (gradData (l.getD j default))))
        = (locals.map (fun l => gradData (l.getD j default))).map (scale ws) := by
      rw [List.map_map]
      rfl
    rw [hcomp2, sumAll_map_scale]

/-- C1 witness data: two executing ranks, owner rank 0, sizes [1, 2],
world size 2, capacity 3 — parameter 0 is packed, parameter 1 is reduced
individually. -/
def c1locals : List (List Param) :=
  [[⟨1, 0, some ⟨[2], false⟩⟩, ⟨2, 0, some ⟨[4, 6], false⟩⟩],
    [⟨1, 0, some ⟨[4], false⟩⟩, ⟨2, 0, some ⟨[0, 2], false⟩⟩]]

/-- C1 witness data: the two zero buffers. -/
def c1bufs : List (List ℚ) := [[0, 0, 0], [0, 0, 0]]

/-- C1 witness data: the two per-rank outcomes of the submission phase. -/
def c1ocs : List RankOutcome :=
  [⟨[⟨1, 0, some ⟨[2], false⟩⟩, ⟨2, 0, some ⟨[2, 3], false⟩⟩], [1, 0, 0], 1, 1, [(0, 1)]⟩,
    ⟨[⟨1, 0, some ⟨[4], false⟩⟩, ⟨2, 0, some ⟨[0, 1], false⟩⟩], [2, 0, 0], 1, 1, [(0, 1)]⟩]

/-- Witness for C1 at packed index 0: the owner observes
(2 + 4)/2 = 3 for the packed parameter. -/
theorem C1_scale_once_witness :
    ((∀ l ∈ c1locals, l.map Param.size = [1, 2])
      ∧ (∀ l ∈ c1locals, ∀ p ∈ l, p.WF)
      ∧ (∀ i, i < c1locals.length →
          processRank 2 3 0 (c1locals.getD i default) (c1bufs.getD i default)
            = .ok (c1ocs.getD i default)))
    ∧ ((0 < greedyCount 3 [1, 2] 0 →
        sliceAt (sumAll 3 (c1ocs.map RankOutcome.buffer)) ((([1, 2] : List ℕ).take 0).sum)
            (([1, 2] : List ℕ).getD 0 0)
          = scale 2 (sumAll (([1, 2] : List ℕ).getD 0 0)
              (c1locals.map (fun l => gradData (l.getD 0 default))))
        ∧ (0 < c1locals.length →
            gradData ((unpackLoop (sumAll 3 (c1ocs.map RankOutcome.buffer)) 3
                ((c1ocs.getD 0 default).params) 0).getD 0 default)
              = scale 2 (sumAll (([1, 2] : List ℕ).getD 0 0)
                  (c1locals.map (fun l => gradData (l.getD 0 default))))))
      ∧ (greedyCount 3 [1, 2] 0 ≤ 0 →
          sumAll (([1, 2] : List ℕ).getD 0 0)
              (c1ocs.map (fun oc => gradData (oc.params.getD 0 default)))
            = scale 2 (sumAll (([1, 2] : List ℕ).getD 0 0)
                (c1locals.map (fun l => gradData (l.getD 0 default)))))) :=
  ⟨⟨by decide, by decide,
    by
      intro i hi
      have hi2 : i < 2 := by simpa [c1locals] using hi
      interval_cases i <;>
        (norm_num [c1locals, c1bufs, c1ocs, processRank, packLoop, writeAt, sliceAt,
          processSuffix, scaleGrad, setGradData, scale, gradData, gradRequires, fillNone,
          List.range', List.replicate_succ, List.take_succ_cons, List.drop_succ_cons,
          List.getD]) <;> decide⟩,
    C1_scale_once 2 3 0 [1, 2] c1locals c1bufs c1ocs 0 (by decide) (by decide) (by decide)
      (by decide) (by decide)
      (by
        intro i hi
        have hi2 : i < 2 := by simpa [c1locals] using hi
        interval_cases i <;>
          (norm_num [c1locals, c1bufs, c1ocs, processRank, packLoop, writeAt, sliceAt,
            processSuffix, scaleGrad, setGradData, scale, gradData, gradRequires, fillNone,
            List.range', List.replicate_succ, List.take_succ_cons, List.drop_succ_cons,
            List.getD]) <;> decide)
      (by decide)⟩

end OssReduceWrap
